import Mathlib

/-!
The program technical-jobs-fetcher: the extractor, the aggregator, the deduper and the
renderer.  A shallow embedding of `src/fetch-jobs.js`.

* JavaScript values that `JSON.parse` can produce are the type `JVal`.  A number is
  represented by its canonical text (what `String(n)` gives), the only two things the
  program observes of a number being its truthiness and its string conversion.
* JavaScript strings are Lean strings; the algorithms run on their character lists.
* A `throw` is the `none` of `Option`; the `try`/`catch` of `findJobs` is modelled with the
  array `jobs` kept as explicit state, so that what was pushed before a throw survives it.
* The document `README.md`, the console and the file reads and writes are the explicit
  state `World`.
-/

namespace FetchJobs

/-! ## JavaScript values -/

/-- Values of the language that `JSON.parse` returns, together with `undefined` (the result
of reading an absent property).  `num text` is the number whose string conversion is `text`
(`"0"` for both zeros); the fields of an object are listed in order, a key is looked up from
the front. -/
inductive JVal where
  | undefined
  | null
  | bool (b : Bool)
  | num (text : String)
  | str (s : String)
  | arr (items : List JVal)
  | obj (fields : List (String × JVal))

/-- Result of `ToBoolean`: `undefined`, `null`, `false`, zero, `NaN` and the empty string are
falsy, every other value (every array and object included) is truthy. -/
def JVal.truthy : JVal → Bool
  | .undefined => false
  | .null => false
  | .bool b => b
  | .num t => !(t == "0" || t == "NaN")
  | .str s => !(s == "")
  | .arr _ => true
  | .obj _ => true

/-- The operator `a || b` on two already evaluated operands. -/
def JVal.or (a b : JVal) : JVal := if a.truthy then a else b

/-- Look a key up in the fields of an object. -/
def lookupField (k : String) : List (String × JVal) → JVal
  | [] => .undefined
  | (k', v) :: rest => if k' = k then v else lookupField k rest

/-- The property read `v.k`, for the property names this program uses (none of them is an
index, `length` or a property of a built-in prototype): a TypeError on `undefined` and
`null`, the field of an object, `undefined` on everything else. -/
def JVal.get (v : JVal) (k : String) : Option JVal :=
  match v with
  | .undefined => none
  | .null => none
  | .obj fs => some (lookupField k fs)
  | _ => some .undefined

/-- Separator-joined concatenation, as `Array.prototype.join` does it. -/
def joinWith (sep : String) : List String → String
  | [] => ""
  | [s] => s
  | s :: t :: rest => s ++ sep ++ joinWith sep (t :: rest)

mutual
/-- The string conversion `ToString(v)` of a template literal: `none` is the TypeError of an
object whose own `toString` field hides the callable inherited one. -/
def JVal.toStr : JVal → Option String
  | .undefined => some "undefined"
  | .null => some "null"
  | .bool b => some (if b then "true" else "false")
  | .num t => some t
  | .str s => some s
  | .arr xs => (JVal.elemStrs xs).map (joinWith ",")
  | .obj fs => if fs.any (fun kv => kv.1 == "toString") then none else some "[object Object]"
termination_by structural v => v
/-- The element strings that `join` concatenates: empty for `undefined` and `null`. -/
def JVal.elemStrs : List JVal → Option (List String)
  | [] => some []
  | x :: rest =>
    match (match x with
            | .undefined => some ""
            | .null => some ""
            | _ => JVal.toStr x),
          JVal.elemStrs rest with
    | some a, some as => some (a :: as)
    | _, _ => none
termination_by structural xs => xs
end

/-! ## Strings -/

/-- Lower-casing of one character by `String.prototype.toLowerCase`, exact on the characters
whose lower case contains an ASCII character: the ASCII capitals, the Kelvin sign U+212A
(to `k`) and the dotted capital I U+0130 (to `i` followed by U+0307).  Every other character
is kept, its lower case being again outside ASCII. -/
def lowerChar (c : Char) : List Char :=
  if c.val = 0x212A then ['k']
  else if c.val = 0x130 then ['i', Char.ofNat 0x307]
  else [c.toLower]

/-- The method `s.toLowerCase()`. -/
def toLowerCase (s : String) : String := ⟨s.data.flatMap lowerChar⟩

/-- Substring test on character lists. -/
def includesChars : List Char → List Char → Bool
  | [], kw => kw.isPrefixOf []
  | c :: t, kw => kw.isPrefixOf (c :: t) || includesChars t kw

/-- The method `s.includes(kw)`. -/
def includes (s kw : String) : Bool := includesChars s.data kw.data

/-! ## The extractor `findJobs` -/

/-- An entry of `JOB_BOARDS`. -/
structure SourceDescriptor where
  name : String
  url : String
  type : String
deriving DecidableEq, Repr

/-- The registry `JOB_BOARDS`. -/
def JOB_BOARDS : List SourceDescriptor :=
  [ { name := "RemoteOK", url := "https://remoteok.com/api", type := "api" },
    { name := "GitLab", url := "https://jobs.gitlab.com/jobs", type := "html" },
    { name := "Postman", url := "https://boards-api.greenhouse.io/v1/boards/postman/jobs",
      type := "api" },
    { name := "Twilio", url := "https://boards-api.greenhouse.io/v1/boards/twilio/jobs",
      type := "api" },
    { name := "MongoDB", url := "https://boards-api.greenhouse.io/v1/boards/mongodb/jobs",
      type := "api" } ]

/-- The object literal that `findJobs` pushes.  `title` is a string (the push is reached only
after `toLowerCase` has been called on it), `company` is `source.name`; the other three
fields hold whatever value the entry carried. -/
structure Posting where
  title : String
  company : String
  location : JVal
  url : JVal
  source : JVal

/-- The constant `writingKeywords` of `findJobs`. -/
def writingKeywords : List String :=
  [ "writer", "writing", "documentation", "docs", "technical writer",
    "content", "documentation engineer", "technical content",
    "developer advocate", "technical evangelist", "staff writer",
    "knowledge", "developer relations", "technical marketing" ]

/-- The test `writingKeywords.some(kw => title.includes(kw))`. -/
def matchesKeyword (title : String) : Bool := writingKeywords.any (fun kw => includes title kw)

/-- The expression `job.position || job.title || job.name`; `none` is the TypeError of a
property read on `null`. -/
def rawTitle (job : JVal) : Option JVal := do
  let position ← job.get "position"
  let title ← job.get "title"
  let name ← job.get "name"
  pure ((position.or title).or name)

/-- The call `x.toLowerCase()`: only a string has the method, on any other value the call is
a TypeError. -/
def callToLowerCase : JVal → Option String
  | .str s => some (toLowerCase s)
  | _ => none

/-- The location of a matching entry (lines 69-77). -/
def deriveLocation (job : JVal) : Option JVal := do
  let loc ← job.get "location"
  if loc.truthy then
    match loc with
    | .str s => pure (.str s)
    | .arr _ | .obj _ =>
      let city ← loc.get "city"
      let name ← loc.get "name"
      let location := (city.or name).or (.str "Remote")
      let country ← loc.get "country"
      if country.truthy then
        let suffix ← country.toStr
        let base ← location.toStr
        pure (.str (base ++ (", " ++ suffix)))
      else pure location
    | _ => pure (.str "Remote")
  else pure (.str "Remote")

/-- The body of the `forEach` callback on one entry, `jobs` being the array built so far:
`none` when the body throws, and then nothing has been pushed for this entry.  The title
pushed is the value of `job.position || job.title || job.name` again; where a keyword has
matched it is a string (see `rawTitle_is_string`), so the last case of the `match` is never
taken. -/
def visitJob (source : SourceDescriptor) (jobs : List Posting) (job : JVal) :
    Option (List Posting) := do
  let raw ← rawTitle job
  let title ← callToLowerCase (raw.or (.str ""))
  if matchesKeyword title then
    let location ← deriveLocation job
    let applyUrl ← job.get "apply_url"
    let absoluteUrl ← job.get "absolute_url"
    let url ← job.get "url"
    match raw with
    | .str t =>
      pure (jobs ++ [{ title := t, company := source.name, location := location,
                       url := ((applyUrl.or absoluteUrl).or url).or (.str source.url),
                       source := url.or (.str source.url) }])
    | _ => none
  else pure jobs

/-- The loop `jobList.forEach(...)` over the elements of an array: the array `jobs` at the
end of the loop, and whether the loop was left by a throw. -/
def forEachJob (source : SourceDescriptor) : List JVal → List Posting → List Posting × Bool
  | [], jobs => (jobs, false)
  | job :: rest, jobs =>
    match visitJob source jobs job with
    | some jobs' => forEachJob source rest jobs'
    | none => (jobs, true)

/-- The value `jobList` (lines 53-54); `none` is the TypeError of a property read on
`null`. -/
def jobListOf (json : JVal) : Option JVal :=
  match json with
  | .arr items => some (.arr items)
  | _ => do
    let jobs ← json.get "jobs"
    let data ← json.get "data"
    let postings ← json.get "postings"
    let jobPostings ← json.get "job_postings"
    pure ((((jobs.or data).or postings).or jobPostings).or (.arr []))

/-- The `try` block of `findJobs`, run on the outcome of `JSON.parse(data)` (`none` when the
call throws a SyntaxError): the array `jobs` when the block is left, and whether it was left
by a throw.  `forEach` exists on arrays only. -/
def tryBlock (parsed : Option JVal) (source : SourceDescriptor) : List Posting × Bool :=
  match parsed with
  | none => ([], true)
  | some json =>
    match jobListOf json with
    | none => ([], true)
    | some (.arr items) => forEachJob source items []
    | some _ => ([], true)

/-- The function `findJobs(data, source)`.  The raw text `data` enters the function through
`JSON.parse(data)` alone, so it is given by the outcome of that call: `some json`, or `none`
when the text is not valid JSON (as the empty string). -/
def findJobs (data : Option JVal) (source : SourceDescriptor) : List Posting :=
  (tryBlock data source).1.take 8

/-- The lines `findJobs` writes to the console: the warning of the `catch` block. -/
def findJobsLog (data : Option JVal) (source : SourceDescriptor) : List String :=
  if (tryBlock data source).2 then ["⚠️ JSON parse failed for " ++ source.name] else []

/-! ## The deduper `dedupe` -/

/-- The key of line 118, the template literal made of `job.title`, a hyphen and
`job.company`. -/
def dedupeKey (job : Posting) : String := job.title ++ "-" ++ job.company

/-- The callback of `jobs.filter` run along the array, `seen` being the set of keys added so
far (`seen.has` is membership, `seen.add` puts the key in). -/
def dedupeFrom (seen : List String) : List Posting → List Posting
  | [] => []
  | job :: rest =>
    if dedupeKey job ∈ seen then dedupeFrom seen rest
    else job :: dedupeFrom (dedupeKey job :: seen) rest

/-- The function `dedupe(jobs)`: the filter started on the empty set. -/
def dedupe (jobs : List Posting) : List Posting := dedupeFrom [] jobs

/-! ## The regular expression of `updateReadme` and `String.prototype.replace` -/

/-- The class `\s`: the white space and line terminator characters of the language. -/
def isJsSpace (c : Char) : Bool :=
  let n := c.toNat
  n = 9 || n = 10 || n = 11 || n = 12 || n = 13 || n = 32 || n = 0xA0 || n = 0x1680
    || (0x2000 ≤ n && n ≤ 0x200A) || n = 0x2028 || n = 0x2029 || n = 0x202F || n = 0x205F
    || n = 0x3000 || n = 0xFEFF

/-- One pattern character against one input character under the flag `i`.  The pattern
characters are ASCII, and only an ASCII character is canonicalised to an ASCII one. -/
def ciEq (p c : Char) : Bool := p.toUpper == c.toUpper

/-- Match a literal at the front of the input, ignoring case: the text consumed and the
rest. -/
def matchLit : List Char → List Char → Option (List Char × List Char)
  | [], s => some ([], s)
  | _ :: _, [] => none
  | p :: ps, c :: cs =>
    if ciEq p c then
      match matchLit ps cs with
      | some (m, rest) => some (c :: m, rest)
      | none => none
    else none

/-- The greedy `\s*`.  What follows it in the pattern starts with a character that is not
white space, so giving a space back can never help and the longest run is the only choice. -/
def matchSpaces : List Char → List Char × List Char
  | [] => ([], [])
  | c :: cs =>
    if isJsSpace c then
      let r := matchSpaces cs
      (c :: r.1, r.2)
    else ([], c :: cs)

/-- The sub-pattern `<!--\s*WORD\s*-->` at the front of the input. -/
def matchMarker (word : String) (s : List Char) : Option (List Char × List Char) :=
  match matchLit "<!--".data s with
  | none => none
  | some (m1, r1) =>
    let sp1 := matchSpaces r1
    match matchLit word.data sp1.2 with
    | none => none
    | some (m2, r2) =>
      let sp2 := matchSpaces r2
      match matchLit "-->".data sp2.2 with
      | none => none
      | some (m3, r3) => some (m1 ++ sp1.1 ++ m2 ++ sp2.1 ++ m3, r3)

/-- The lazy `[\s\S]*?` followed by the end marker: skip as few characters as possible, of
any kind, until the end marker matches. -/
def matchLazyToEnd : List Char → Option (List Char × List Char)
  | [] => none
  | c :: cs =>
    match matchMarker "JOBS-END" (c :: cs) with
    | some r => some r
    | none =>
      match matchLazyToEnd cs with
      | some (m, rest) => some (c :: m, rest)
      | none => none

/-- The whole pattern at the front of the input. -/
def matchRegion (s : List Char) : Option (List Char × List Char) :=
  match matchMarker "JOBS-START" s with
  | none => none
  | some (m1, r1) =>
    match matchLazyToEnd r1 with
    | none => none
    | some (m2, r2) => some (m1 ++ m2, r2)

/-- The first match of the pattern in the input, tried from each position in turn: the text
before the match, the match, the text after it. -/
def regexExec : List Char → Option (List Char × List Char × List Char)
  | [] => none
  | c :: cs =>
    match matchRegion (c :: cs) with
    | some (m, rest) => some ([], m, rest)
    | none =>
      match regexExec cs with
      | some (pre, m, rest) => some (c :: pre, m, rest)
      | none => none

/-- Expansion of the replacement text by `replace` (the abstract operation GetSubstitution)
for a pattern without capture groups: `$$` is a dollar, `$&` the match, a dollar and a
backtick the text before the match, a dollar and an apostrophe the text after it; every
other character, a dollar before a digit or `<` included, stands for itself (so does the
character after such a dollar, which is not a dollar). -/
def getSubstitution (matched before after : List Char) : List Char → List Char
  | [] => []
  | c :: t =>
    if c = '$' then
      match t with
      | [] => ['$']
      | d :: u =>
        if d = '$' then '$' :: getSubstitution matched before after u
        else if d = '&' then matched ++ getSubstitution matched before after u
        else if d = Char.ofNat 96 then before ++ getSubstitution matched before after u
        else if d = Char.ofNat 39 then after ++ getSubstitution matched before after u
        else '$' :: d :: getSubstitution matched before after u
    else c :: getSubstitution matched before after t

/-- The call `readme.replace(/<!--\s*JOBS-START\s*-->[\s\S]*?<!--\s*JOBS-END\s*-->/i,
content)`: the first match is replaced by the expanded replacement text, a text without a
match is returned as it is. -/
def replaceRegion (readme content : String) : String :=
  match regexExec readme.data with
  | none => readme
  | some (before, matched, after) =>
    ⟨before ++ getSubstitution matched before after content.data ++ after⟩

/-! ## The renderer `updateReadme` -/

/-- What the program does to its environment. -/
inductive Effect where
  | log (line : String)
  | readFile
  | writeFile (content : String)
deriving DecidableEq, Repr

/-- The environment of `updateReadme`: the content of the file `README.md` (`none` when the
file cannot be read) and the effects performed so far, oldest first. -/
structure World where
  readme : Option String
  effects : List Effect
deriving DecidableEq, Repr

/-- End of a run of `updateReadme`: the environment left behind and whether the promise was
rejected by an uncaught exception. -/
structure Outcome where
  world : World
  rejected : Bool
deriving DecidableEq, Repr

/-- The constant `tableHeader`. -/
def tableHeader : String :=
  "| Company | Job Title | Location | Apply |\n|---------|-----------|----------|--------|"

/-- One table row (line 138).  The postings have no field `apply_url`, the read of it gives
`undefined`. -/
def renderRow (job : Posting) : Option String := do
  let url ← job.url.toStr
  let location ← (job.location.or (.str "Remote")).toStr
  let apply ← ((JVal.undefined).or job.url).toStr
  pure ("| **" ++ job.company ++ "** | **[" ++ job.title ++ "](" ++ url ++ ")** | "
    ++ location ++ " | [ Apply](" ++ apply ++ ") |")

/-- The rows of a list of postings; `none` when a conversion to string throws. -/
def renderRows : List Posting → Option (List String)
  | [] => some []
  | job :: rest =>
    match renderRow job, renderRows rest with
    | some r, some rs => some (r :: rs)
    | _, _ => none

/-- The constant `table`. -/
def renderTable (uniqueJobs : List Posting) : Option String :=
  (renderRows (uniqueJobs.take 12)).map
    (fun rows => tableHeader ++ "\n| --- | --- | --- | --- |\n" ++ joinWith "\n" rows)

/-- The constant `content`; `now` is the text of
`new Date().toLocaleString('en-US', {timeZone: 'UTC'})`. -/
def renderContent (now : String) (uniqueJobs : List Posting) : Option String :=
  (renderTable uniqueJobs).map (fun table =>
    "<!-- JOBS-START -->\n#  **Live Technical Writing Jobs** ("
      ++ toString uniqueJobs.length ++ " found)\n\n" ++ table
      ++ "\n\n**Sources:** RemoteOK, Postman, Twilio, GitLab  \n*Updated: " ++ now
      ++ " UTC*  \n<!-- JOBS-END -->")

/-- One line of the sample printed at the end (line 161). -/
def sampleLine (j : Posting) : Option String :=
  j.location.toStr.map (fun location => j.company ++ ": " ++ j.title ++ " (" ++ location ++ ")")

/-- The lines of the sample. -/
def sampleLines : List Posting → Option (List String)
  | [] => some []
  | j :: rest =>
    match sampleLine j, sampleLines rest with
    | some l, some ls => some (l :: ls)
    | _, _ => none

/-- The function `updateReadme(jobs)` run in the environment `w`, at a moment whose date text
is `now`.  A write to the file succeeds. -/
def updateReadme (now : String) (jobs : List Posting) (w : World) : Outcome :=
  if jobs.length = 0 then
    { world := { w with effects := w.effects ++ [.log "⚠️ No real writing jobs found"] },
      rejected := false }
  else
    let uniqueJobs := dedupe jobs
    match renderContent now uniqueJobs with
    | none => { world := w, rejected := true }
    | some content =>
      match w.readme with
      | none => { world := { w with effects := w.effects ++ [.readFile] }, rejected := true }
      | some readme =>
        let updatedReadme := replaceRegion readme content
        let w1 : World :=
          { readme := some updatedReadme,
            effects := w.effects ++ [.readFile, .writeFile updatedReadme,
              .log ("✅ TABLE FIXED: " ++ toString uniqueJobs.length ++ " CLEAN jobs written")] }
        match sampleLines (uniqueJobs.take 2) with
        | none => { world := w1, rejected := true }
        | some lines =>
          { world := { w1 with effects := w1.effects ++ [.log ("📋 Sample: " ++ joinWith "\n" lines)] },
            rejected := false }

/-! ## The aggregator `fetchAllJobs` and `main` -/

/-- The function `fetchAllJobs()`.  `response url` stands for the text that `fetchPage(url)`
resolves to, given as `findJobs` takes it: by the outcome of `JSON.parse` on it (`none` for a
text that is not valid JSON, as the empty string of a failed request).  The loop runs over
`JOB_BOARDS` in order and `allJobs.push(...jobs)` appends the postings of each source; the
console lines and the pause of 500 ms between two sources do not touch the value returned. -/
def fetchAllJobs (response : String → Option JVal) : List Posting :=
  JOB_BOARDS.foldl (fun allJobs source => allJobs ++ findJobs (response source.url) source) []

/-- The function `main()`: what `fetchAllJobs` returns is handed to `updateReadme` whole. -/
def main (now : String) (response : String → Option JVal) (w : World) : Outcome :=
  updateReadme now (fetchAllJobs response) w

/-! ## The words of the specification -/

/-- The specification's "first present of the fields": the value of the first of the keys
that the object has, whatever that value is; `none` when it has none of them. -/
def specFirstPresent : List String → List (String × JVal) → Option JVal
  | [], _ => none
  | k :: ks, fs =>
    if fs.any (fun kv => kv.1 == k) then some (lookupField k fs) else specFirstPresent ks fs

/-- The ten keywords that the other four contain. -/
def coreKeywords : List String :=
  [ "writer", "writing", "documentation", "docs", "content", "knowledge",
    "developer advocate", "technical evangelist", "developer relations",
    "technical marketing" ]

/-! ## Sample inputs -/

/-- An entry with a title and nothing else. -/
def titled (title : String) : JVal := .obj [("title", .str title)]

/-- Responses of the five sources in which RemoteOK lists eight matching entries, GitLab five
others, and the other three answer with a text that is not valid JSON. -/
def thirteenResponses (url : String) : Option JVal :=
  if url = "https://remoteok.com/api" then
    some (.arr [titled "Docs A", titled "Docs B", titled "Docs C", titled "Docs D",
                titled "Docs E", titled "Docs F", titled "Docs G", titled "Docs H"])
  else if url = "https://jobs.gitlab.com/jobs" then
    some (.obj [("jobs", .arr [titled "Docs I", titled "Docs J", titled "Docs K",
                               titled "Docs L", titled "Docs M"])])
  else none

/-- The registry entry of Postman. -/
def postman : SourceDescriptor :=
  { name := "Postman", url := "https://boards-api.greenhouse.io/v1/boards/postman/jobs",
    type := "api" }

/-- An entry as a job board sends it: the `position` is `null` and the `apply_url` empty,
the location is an object. -/
def sampleEntry : JVal :=
  .obj [("position", .null), ("title", .str "Senior Technical Writer"),
        ("location", .obj [("city", .str "Berlin"), ("country", .str "Germany")]),
        ("apply_url", .str ""), ("absolute_url", .str "https://example.com/apply"),
        ("url", .str "https://example.com/job")]

/-- The posting that `findJobs` makes of `sampleEntry` for the source `postman`. -/
def samplePosting : Posting :=
  { title := "Senior Technical Writer", company := "Postman",
    location := .str "Berlin, Germany", url := .str "https://example.com/apply",
    source := .str "https://example.com/job" }

/-! ## Lemmas on the extractor -/

theorem matchesKeyword_empty : matchesKeyword (toLowerCase "") = false := by decide

/-- Where the keyword test succeeds, the value of `job.position || job.title || job.name` is a
string: a falsy value is replaced by the empty string, which matches no keyword, and a truthy
value that is not a string has no method `toLowerCase`. -/
theorem rawTitle_is_string (raw : JVal) (title : String)
    (hlow : callToLowerCase (raw.or (.str "")) = some title)
    (hm : matchesKeyword title = true) : ∃ t, raw = .str t := by
  unfold JVal.or at hlow
  cases htr : raw.truthy with
  | true =>
    rw [htr] at hlow
    cases raw with
    | str t => exact ⟨t, rfl⟩
    | _ => simp [callToLowerCase] at hlow
  | false =>
    rw [htr] at hlow
    simp only [Bool.false_eq_true, if_false, callToLowerCase, Option.some.injEq] at hlow
    subst hlow
    exact absurd hm (by decide)

/-- What one visit can do to the array: leave it, or push one posting at its end, and the
pushed posting depends on the entry alone. -/
theorem visitJob_some (source : SourceDescriptor) (jobs jobs' : List Posting) (job : JVal)
    (h : visitJob source jobs job = some jobs') :
    jobs' = jobs ∨ ∃ p, jobs' = jobs ++ [p] ∧ visitJob source [] job = some [p] ∧
      rawTitle job = some (.str p.title) ∧ matchesKeyword (toLowerCase p.title) = true := by
  unfold visitJob at h ⊢
  cases hraw : rawTitle job with
  | none => simp [hraw] at h
  | some raw =>
    cases hlow : callToLowerCase (raw.or (.str "")) with
    | none => simp [hraw, hlow] at h
    | some title =>
      by_cases hm : matchesKeyword title = true
      · cases hloc : deriveLocation job with
        | none => simp [hraw, hlow, hm, hloc] at h
        | some location =>
          cases ha : job.get "apply_url" with
          | none => simp [hraw, hlow, hm, hloc, ha] at h
          | some applyUrl =>
            cases hb : job.get "absolute_url" with
            | none => simp [hraw, hlow, hm, hloc, ha, hb] at h
            | some absoluteUrl =>
              cases hu : job.get "url" with
              | none => simp [hraw, hlow, hm, hloc, ha, hb, hu] at h
              | some url =>
                cases raw with
                | str t =>
                  simp only [hraw, hlow, hm, hloc, ha, hb, hu, Option.bind_eq_bind,
                    Option.some_bind, if_true, Option.pure_def, Option.some.injEq] at h ⊢
                  right
                  refine ⟨_, h.symm, by simp, rfl, ?_⟩
                  simp only [JVal.or, JVal.truthy] at hlow
                  by_cases ht : t = ""
                  · subst ht
                    simp [callToLowerCase] at hlow
                    subst hlow
                    exact absurd hm (by decide)
                  · simp [ht, callToLowerCase] at hlow
                    subst hlow
                    exact hm
                | _ => simp [hraw, hlow, hm, hloc, ha, hb, hu] at h
      · left
        simp [hraw, hlow, hm] at h
        exact h.symm

/-- Every posting in the array after the loop was there before it, or was pushed by the visit
of one of the entries. -/
theorem forEachJob_mem (source : SourceDescriptor) (items : List JVal) :
    ∀ (jobs : List Posting) (p : Posting), p ∈ (forEachJob source items jobs).1 →
      p ∈ jobs ∨ ∃ job ∈ items, visitJob source [] job = some [p] ∧
        rawTitle job = some (.str p.title) ∧ matchesKeyword (toLowerCase p.title) = true := by
  induction items with
  | nil => intro jobs p h; exact Or.inl h
  | cons job rest ih =>
    intro jobs p h
    unfold forEachJob at h
    cases hv : visitJob source jobs job with
    | none => rw [hv] at h; exact Or.inl h
    | some jobs' =>
      rw [hv] at h
      rcases ih jobs' p h with hin | ⟨j, hj, hrest⟩
      · rcases visitJob_some source jobs jobs' job hv with heq | ⟨q, heq, hq⟩
        · subst heq; exact Or.inl hin
        · subst heq
          rcases List.mem_append.mp hin with hold | hnew
          · exact Or.inl hold
          · have hpq : p = q := by simpa using hnew
            subst hpq
            exact Or.inr ⟨job, List.mem_cons_self _ _, hq⟩
      · exact Or.inr ⟨j, List.mem_cons_of_mem _ hj, hrest⟩

/-- A posting of the result comes from an entry of the list that `findJobs` iterates. -/
theorem findJobs_mem (data : Option JVal) (source : SourceDescriptor) (p : Posting)
    (h : p ∈ findJobs data source) :
    ∃ json items job, data = some json ∧ jobListOf json = some (.arr items) ∧ job ∈ items ∧
      visitJob source [] job = some [p] ∧ rawTitle job = some (.str p.title) ∧
      matchesKeyword (toLowerCase p.title) = true := by
  have h1 : p ∈ (tryBlock data source).1 := List.mem_of_mem_take h
  unfold tryBlock at h1
  cases data with
  | none => simp at h1
  | some json =>
    cases hl : jobListOf json with
    | none => simp [hl] at h1
    | some jl =>
      cases jl with
      | arr items =>
        simp only [hl] at h1
        rcases forEachJob_mem source items [] p h1 with hnil | ⟨job, hjob, hrest⟩
        · simp at hnil
        · exact ⟨json, items, job, rfl, hl, hjob, hrest⟩
      | _ => simp [hl] at h1

/-- The cut `slice(0, 8)` bounds the length of the result. -/
theorem findJobs_length_le (data : Option JVal) (source : SourceDescriptor) :
    (findJobs data source).length ≤ 8 :=
  List.length_take_le 8 _

/-! ## Theorems on the extractor -/

/-- C1: for every outcome of parsing the raw text and every source descriptor, `findJobs`
returns at most 8 postings, however many entries match. -/
theorem findJobs_length_le_eight (data : Option JVal) (source : SourceDescriptor) :
    (findJobs data source).length ≤ 8 := by
  unfold findJobs
  exact List.length_take_le 8 _

/-- C2: every posting returned by `findJobs` was pushed by the visit of an entry of the
iterated list whose derived title is the posting's title and, lower-cased, contains one of
the 14 keywords; the visit of an entry whose derived title, lower-cased, contains no keyword
pushes nothing; and the text `[{"position":"Backend Engineer"}]` yields no posting. -/
theorem findJobs_keeps_only_keyword_titles :
    (∀ (data : Option JVal) (source : SourceDescriptor) (p : Posting),
      p ∈ findJobs data source →
      ∃ json items job, data = some json ∧ jobListOf json = some (.arr items) ∧ job ∈ items ∧
        visitJob source [] job = some [p] ∧ rawTitle job = some (.str p.title) ∧
        ∃ kw ∈ writingKeywords, includes (toLowerCase p.title) kw = true) ∧
    (∀ (source : SourceDescriptor) (jobs jobs' : List Posting) (job : JVal),
      (∀ t, rawTitle job = some (.str t) → matchesKeyword (toLowerCase t) = false) →
      visitJob source jobs job = some jobs' → jobs' = jobs) ∧
    (∀ source : SourceDescriptor,
      findJobs (some (.arr [.obj [("position", .str "Backend Engineer")]])) source = []) := by
  refine ⟨?_, ?_, ?_⟩
  · intro data source p h
    obtain ⟨json, items, job, h1, h2, h3, h4, h5, h6⟩ := findJobs_mem data source p h
    refine ⟨json, items, job, h1, h2, h3, h4, h5, ?_⟩
    unfold matchesKeyword at h6
    rw [List.any_eq_true] at h6
    exact h6
  · intro source jobs jobs' job hno hv
    rcases visitJob_some source jobs jobs' job hv with heq | ⟨q, _, _, hq, hm⟩
    · exact heq
    · rw [hno q.title hq] at hm
      exact absurd hm (by decide)
  · intro source
    rfl

/-- Witness of C2: the posting that the text `[{"title":"Senior Technical Writer"}]` yields for
the source Postman comes from the one entry of the list. -/
theorem findJobs_keeps_only_keyword_titles_witness :
    ∃ json items job,
      some (JVal.arr [.obj [("title", .str "Senior Technical Writer")]]) = some json ∧
      jobListOf json = some (.arr items) ∧ job ∈ items ∧
      visitJob { name := "Postman",
                 url := "https://boards-api.greenhouse.io/v1/boards/postman/jobs",
                 type := "api" } [] job
        = some [{ title := "Senior Technical Writer", company := "Postman",
                  location := .str "Remote",
                  url := .str "https://boards-api.greenhouse.io/v1/boards/postman/jobs",
                  source := .str "https://boards-api.greenhouse.io/v1/boards/postman/jobs" }] ∧
      rawTitle job = some (.str "Senior Technical Writer") ∧
      ∃ kw ∈ writingKeywords, includes (toLowerCase "Senior Technical Writer") kw = true :=
  findJobs_keeps_only_keyword_titles.1
    (some (.arr [.obj [("title", .str "Senior Technical Writer")]]))
    { name := "Postman", url := "https://boards-api.greenhouse.io/v1/boards/postman/jobs",
      type := "api" }
    { title := "Senior Technical Writer", company := "Postman", location := .str "Remote",
      url := .str "https://boards-api.greenhouse.io/v1/boards/postman/jobs",
      source := .str "https://boards-api.greenhouse.io/v1/boards/postman/jobs" }
    (List.mem_singleton.mpr rfl)

/-- C8: when `JSON.parse` throws on the raw text (the text is not valid JSON, as the empty
string of a transport error), the exception is caught inside `findJobs`, which returns the
empty list and writes its warning, for every source. -/
theorem findJobs_invalid_json (source : SourceDescriptor) :
    findJobs none source = [] ∧ tryBlock none source = ([], true) ∧
      findJobsLog none source = ["⚠️ JSON parse failed for " ++ source.name] := by
  refine ⟨rfl, rfl, rfl⟩

/-- C9: evaluation of `findJobs` on entry lists with a malformed entry.  The text
`[null,{"title":"Technical Writer"}]` yields no posting, and so does
`[{"title":5},{"title":"Technical Writer"}]`, although the last entry alone yields one; in
`[{"title":"Technical Writer"},null,{"title":"Docs Lead"}]` the entry after `null` is lost.
The throw of the malformed entry leaves the loop and is reported as a parse failure. -/
theorem findJobs_malformed_entry_aborts :
    findJobs (some (.arr [.null, .obj [("title", .str "Technical Writer")]]))
        { name := "RemoteOK", url := "https://remoteok.com/api", type := "api" } = [] ∧
    findJobs (some (.arr [.obj [("title", .num "5")], .obj [("title", .str "Technical Writer")]]))
        { name := "RemoteOK", url := "https://remoteok.com/api", type := "api" } = [] ∧
    findJobs (some (.arr [.obj [("title", .str "Technical Writer")]]))
        { name := "RemoteOK", url := "https://remoteok.com/api", type := "api" } =
      [{ title := "Technical Writer", company := "RemoteOK", location := .str "Remote",
         url := .str "https://remoteok.com/api", source := .str "https://remoteok.com/api" }] ∧
    findJobs (some (.arr [.obj [("title", .str "Technical Writer")], .null,
          .obj [("title", .str "Docs Lead")]]))
        { name := "RemoteOK", url := "https://remoteok.com/api", type := "api" } =
      [{ title := "Technical Writer", company := "RemoteOK", location := .str "Remote",
         url := .str "https://remoteok.com/api", source := .str "https://remoteok.com/api" }] ∧
    findJobsLog (some (.arr [.null, .obj [("title", .str "Technical Writer")]]))
        { name := "RemoteOK", url := "https://remoteok.com/api", type := "api" } =
      ["⚠️ JSON parse failed for RemoteOK"] := by
  refine ⟨rfl, rfl, rfl, rfl, rfl⟩

/-! ## Lemmas on the deduper -/

/-- The keys of the postings kept are pairwise different and none of them was in the set at
the start. -/
theorem dedupeFrom_keys (jobs : List Posting) :
    ∀ seen : List String,
      (dedupeFrom seen jobs).Pairwise (fun a b => dedupeKey a ≠ dedupeKey b) ∧
      ∀ p ∈ dedupeFrom seen jobs, dedupeKey p ∉ seen := by
  induction jobs with
  | nil => intro seen; simp [dedupeFrom]
  | cons job rest ih =>
    intro seen
    unfold dedupeFrom
    by_cases hk : dedupeKey job ∈ seen
    · simp only [hk, if_true]
      exact ih seen
    · simp only [hk, if_false]
      obtain ⟨hpw, hnot⟩ := ih (dedupeKey job :: seen)
      refine ⟨List.pairwise_cons.mpr ⟨?_, hpw⟩, ?_⟩
      · intro q hq heq
        exact hnot q hq (heq ▸ List.mem_cons_self _ _)
      · intro p hp
        rcases List.mem_cons.mp hp with hpj | hpr
        · subst hpj; exact hk
        · exact fun hin => hnot p hpr (List.mem_cons_of_mem _ hin)

/-- A list whose keys are pairwise different and new is kept whole. -/
theorem dedupeFrom_fixed (jobs : List Posting) :
    ∀ seen : List String,
      jobs.Pairwise (fun a b => dedupeKey a ≠ dedupeKey b) →
      (∀ p ∈ jobs, dedupeKey p ∉ seen) → dedupeFrom seen jobs = jobs := by
  induction jobs with
  | nil => intro seen _ _; rfl
  | cons job rest ih =>
    intro seen hpw hnew
    unfold dedupeFrom
    have hk : dedupeKey job ∉ seen := hnew job (List.mem_cons_self _ _)
    simp only [hk, if_false]
    obtain ⟨hhead, htail⟩ := List.pairwise_cons.mp hpw
    congr 1
    apply ih _ htail
    intro p hp hin
    rcases List.mem_cons.mp hin with heq | hin'
    · exact hhead p hp heq.symm
    · exact hnew p (List.mem_cons_of_mem _ hp) hin'

/-- The postings kept are a subsequence of the input. -/
theorem dedupeFrom_sublist (jobs : List Posting) :
    ∀ seen : List String, (dedupeFrom seen jobs).Sublist jobs := by
  induction jobs with
  | nil => intro seen; exact List.Sublist.slnil
  | cons job rest ih =>
    intro seen
    unfold dedupeFrom
    by_cases hk : dedupeKey job ∈ seen
    · simp only [hk, if_true]
      exact (ih seen).cons job
    · simp only [hk, if_false]
      exact (ih _).cons₂ job

/-- The first posting of the input that has the key of a given posting is kept, when that
key is not in the set at the start. -/
theorem dedupeFrom_keeps_first (jobs : List Posting) :
    ∀ (seen : List String) (p : Posting), p ∈ jobs → dedupeKey p ∉ seen →
      ∃ q, jobs.find? (fun q => dedupeKey q == dedupeKey p) = some q ∧
        q ∈ dedupeFrom seen jobs := by
  induction jobs with
  | nil => intro seen p hp; simp at hp
  | cons job rest ih =>
    intro seen p hp hnew
    by_cases hk : dedupeKey job = dedupeKey p
    · refine ⟨job, by simp [List.find?, hk], ?_⟩
      unfold dedupeFrom
      have : dedupeKey job ∉ seen := hk ▸ hnew
      simp [this]
    · have hp' : p ∈ rest := by
        rcases List.mem_cons.mp hp with heq | h
        · exact absurd (heq ▸ rfl) hk
        · exact h
      have hfind : (job :: rest).find? (fun q => dedupeKey q == dedupeKey p)
          = rest.find? (fun q => dedupeKey q == dedupeKey p) := by
        have hf : (dedupeKey job == dedupeKey p) = false := by simpa using hk
        simp only [List.find?, hf]
      rw [hfind]
      unfold dedupeFrom
      by_cases hs : dedupeKey job ∈ seen
      · simp only [hs, if_true]
        exact ih seen p hp' hnew
      · simp only [hs, if_false]
        have hnew' : dedupeKey p ∉ dedupeKey job :: seen := by
          intro hin
          rcases List.mem_cons.mp hin with heq | h
          · exact hk heq.symm
          · exact hnew h
        obtain ⟨q, hq1, hq2⟩ := ih _ p hp' hnew'
        exact ⟨q, hq1, List.mem_cons_of_mem _ hq2⟩

/-- A key determines the title and the company when neither company has a hyphen. -/
theorem key_chars_inj :
    ∀ (t₁ t₂ c₁ c₂ : List Char), '-' ∉ c₁ → '-' ∉ c₂ →
      t₁ ++ '-' :: c₁ = t₂ ++ '-' :: c₂ → t₁ = t₂ ∧ c₁ = c₂ := by
  intro t₁
  induction t₁ with
  | nil =>
    intro t₂ c₁ c₂ h₁ h₂ h
    cases t₂ with
    | nil => simpa using h
    | cons x t₂ =>
      simp only [List.nil_append, List.cons_append, List.cons.injEq] at h
      exact absurd (h.2 ▸ List.mem_append_right _ (List.mem_cons_self _ _)) h₁
  | cons x t₁ ih =>
    intro t₂ c₁ c₂ h₁ h₂ h
    cases t₂ with
    | nil =>
      simp only [List.nil_append, List.cons_append, List.cons.injEq] at h
      exact absurd (h.2 ▸ List.mem_append_right _ (List.mem_cons_self _ _)) h₂
    | cons y t₂ =>
      simp only [List.cons_append, List.cons.injEq] at h
      obtain ⟨hxy, hrest⟩ := h
      obtain ⟨ht, hc⟩ := ih t₂ c₁ c₂ h₁ h₂ hrest
      exact ⟨by rw [hxy, ht], hc⟩

/-- Two postings with the same key have the same title and the same company when neither
company name contains a hyphen. -/
theorem dedupeKey_inj (a b : Posting) (ha : '-' ∉ a.company.data) (hb : '-' ∉ b.company.data)
    (h : dedupeKey a = dedupeKey b) : a.title = b.title ∧ a.company = b.company := by
  have h' : a.title.data ++ '-' :: a.company.data = b.title.data ++ '-' :: b.company.data := by
    have := congrArg String.data h
    simpa [dedupeKey, String.data_append] using this
  obtain ⟨h1, h2⟩ := key_chars_inj _ _ _ _ ha hb h'
  exact ⟨String.ext h1, String.ext h2⟩

/-- Two tests that agree on every element of a list find the same element. -/
theorem find?_agree {α : Type} (f g : α → Bool) (l : List α) (h : ∀ x ∈ l, f x = g x) :
    l.find? f = l.find? g := by
  induction l with
  | nil => rfl
  | cons a rest ih =>
    have ha : f a = g a := h a (List.mem_cons_self _ _)
    have hr : rest.find? f = rest.find? g := ih (fun x hx => h x (List.mem_cons_of_mem _ hx))
    simp only [List.find?, ha, hr]

/-! ## Theorems on the deduper -/

/-- C3: in the output of `dedupe` no two postings at different positions have the same title
and the same company. -/
theorem dedupe_no_two_share_title_and_company (jobs : List Posting) :
    (dedupe jobs).Pairwise (fun a b => ¬ (a.title = b.title ∧ a.company = b.company)) := by
  refine ((dedupeFrom_keys jobs []).1).imp ?_
  intro a b hne hsame
  apply hne
  unfold dedupeKey
  rw [hsame.1, hsame.2]

/-- C4: `dedupe` is idempotent. -/
theorem dedupe_idempotent (jobs : List Posting) : dedupe (dedupe jobs) = dedupe jobs := by
  unfold dedupe
  exact dedupeFrom_fixed _ [] (dedupeFrom_keys jobs []).1 (fun _ _ => List.not_mem_nil _)

/-- C5: the output of `dedupe` is a subsequence of its input (the postings kept are elements
of the input, unchanged and in their original order), so it is not longer than the input. -/
theorem dedupe_sublist (jobs : List Posting) :
    (dedupe jobs).Sublist jobs ∧ (dedupe jobs).length ≤ jobs.length :=
  ⟨dedupeFrom_sublist jobs [], (dedupeFrom_sublist jobs []).length_le⟩

/-- C10, as stated, fails: the postings (`Writer-A`, `B`) and (`Writer`, `A-B`) have
different titles and companies and the same key `Writer-A-B`, so the second is dropped and
the output has no posting with its title and company. -/
theorem dedupe_merges_postings_with_equal_keys :
    ¬ ∀ (xs : List Posting) (p : Posting), p ∈ xs →
        ∃ q ∈ dedupe xs, q.title = p.title ∧ q.company = p.company := by
  intro h
  obtain ⟨q, hq, ht, _⟩ := h
    [{ title := "Writer-A", company := "B", location := .str "Remote", url := .str "u",
       source := .str "u" },
     { title := "Writer", company := "A-B", location := .str "Remote", url := .str "u",
       source := .str "u" }]
    { title := "Writer", company := "A-B", location := .str "Remote", url := .str "u",
      source := .str "u" }
    (List.mem_cons_of_mem _ (List.mem_cons_self _ _))
  have hd : dedupe
      [{ title := "Writer-A", company := "B", location := .str "Remote", url := .str "u",
         source := .str "u" },
       { title := "Writer", company := "A-B", location := .str "Remote", url := .str "u",
         source := .str "u" }]
      = [{ title := "Writer-A", company := "B", location := .str "Remote", url := .str "u",
           source := .str "u" }] := rfl
  rw [hd, List.mem_singleton] at hq
  subst hq
  exact absurd ht (by decide)

/-- C10, amended: when no company name in the list contains a hyphen (as none of the five
registry names does), `dedupe` keeps, for every posting of the list, the first posting of the
list that has its title and its company; so a posting is only ever dropped for an earlier
one with the same title and the same company. -/
theorem dedupe_keeps_first_of_each_pair (xs : List Posting)
    (hco : ∀ p ∈ xs, '-' ∉ p.company.data) (p : Posting) (hp : p ∈ xs) :
    ∃ q, xs.find? (fun q => q.title == p.title && q.company == p.company) = some q ∧
      q ∈ dedupe xs ∧ q.title = p.title ∧ q.company = p.company := by
  obtain ⟨q, hfind, hq⟩ := dedupeFrom_keeps_first xs [] p hp (List.not_mem_nil _)
  have hagree : ∀ x ∈ xs, (dedupeKey x == dedupeKey p)
      = (x.title == p.title && x.company == p.company) := by
    intro x hx
    by_cases hk : dedupeKey x = dedupeKey p
    · obtain ⟨h1, h2⟩ := dedupeKey_inj x p (hco x hx) (hco p hp) hk
      simp [hk, h1, h2]
    · have hne : ¬ (x.title = p.title ∧ x.company = p.company) := by
        rintro ⟨h1, h2⟩
        exact hk (by unfold dedupeKey; rw [h1, h2])
      have hl : (dedupeKey x == dedupeKey p) = false := by simpa using hk
      rw [hl]
      by_cases h1 : x.title = p.title
      · have h2 : x.company ≠ p.company := fun h2 => hne ⟨h1, h2⟩
        simp [h1, h2]
      · simp [h1]
  rw [find?_agree _ _ xs hagree] at hfind
  have hkey : dedupeKey q = dedupeKey p := by
    have := List.find?_some hfind
    simp only [Bool.and_eq_true, beq_iff_eq] at this
    unfold dedupeKey
    rw [this.1, this.2]
  have hqx : q ∈ xs := List.mem_of_find?_eq_some hfind
  obtain ⟨h1, h2⟩ := dedupeKey_inj q p (hco q hqx) (hco p hp) hkey
  exact ⟨q, hfind, hq, h1, h2⟩

/-- Witness of C10 amended: three postings of two registry sources, the third a repetition
of the first. -/
theorem dedupe_keeps_first_of_each_pair_witness :
    ∃ q, ([{ title := "Technical Writer", company := "GitLab", location := .str "Remote",
             url := .str "u1", source := .str "u1" },
           { title := "Technical Writer", company := "Twilio", location := .str "Remote",
             url := .str "u2", source := .str "u2" },
           { title := "Technical Writer", company := "GitLab", location := .str "Berlin",
             url := .str "u3", source := .str "u3" }] : List Posting).find?
          (fun q => q.title == "Technical Writer" && q.company == "GitLab") = some q ∧
      q ∈ dedupe
          [{ title := "Technical Writer", company := "GitLab", location := .str "Remote",
             url := .str "u1", source := .str "u1" },
           { title := "Technical Writer", company := "Twilio", location := .str "Remote",
             url := .str "u2", source := .str "u2" },
           { title := "Technical Writer", company := "GitLab", location := .str "Berlin",
             url := .str "u3", source := .str "u3" }] ∧
      q.title = "Technical Writer" ∧ q.company = "GitLab" :=
  dedupe_keeps_first_of_each_pair
    [{ title := "Technical Writer", company := "GitLab", location := .str "Remote",
       url := .str "u1", source := .str "u1" },
     { title := "Technical Writer", company := "Twilio", location := .str "Remote",
       url := .str "u2", source := .str "u2" },
     { title := "Technical Writer", company := "GitLab", location := .str "Berlin",
       url := .str "u3", source := .str "u3" }]
    (by
      intro p hp
      simp only [List.mem_cons, List.mem_singleton, List.not_mem_nil, or_false] at hp
      rcases hp with h | h | h <;> subst h <;> decide)
    { title := "Technical Writer", company := "GitLab", location := .str "Berlin",
      url := .str "u3", source := .str "u3" }
    (List.mem_cons_of_mem _ (List.mem_cons_of_mem _ (List.mem_cons_self _ _)))

/-! ## Lemmas on the renderer -/

/-- A replacement text without a dollar is inserted as it is. -/
theorem getSubstitution_of_no_dollar (matched before after : List Char) :
    ∀ content : List Char, '$' ∉ content →
      getSubstitution matched before after content = content := by
  intro content
  induction content with
  | nil => intro _; rfl
  | cons c t ih =>
    intro h
    have hc : c ≠ '$' := fun hc => h (hc ▸ List.mem_cons_self _ _)
    have ht : '$' ∉ t := fun ht => h (List.mem_cons_of_mem _ ht)
    unfold getSubstitution
    simp only [hc, if_false]
    rw [ih ht]

/-- The pattern matches the whole of the document `<!-- JOBS-START -->old<!-- JOBS-END -->`. -/
theorem regexExec_old_document :
    regexExec "<!-- JOBS-START -->old<!-- JOBS-END -->".data
      = some ([], "<!-- JOBS-START -->old<!-- JOBS-END -->".data, []) := by
  decide

/-- Round trip for a generated block without a dollar: on the document
`<!-- JOBS-START -->old<!-- JOBS-END -->` and a non-empty posting list whose block is rendered
without a throw, the document written is exactly the block. -/
theorem updateReadme_round_trip_of_no_dollar (now : String) (jobs : List Posting) (w : World)
    (content : String) (hne : jobs ≠ [])
    (hdoc : w.readme = some "<!-- JOBS-START -->old<!-- JOBS-END -->")
    (hc : renderContent now (dedupe jobs) = some content) (hd : '$' ∉ content.data) :
    (updateReadme now jobs w).world.readme = some content := by
  have hlen : jobs.length ≠ 0 := fun h => hne (List.length_eq_zero.mp h)
  have hrep : replaceRegion "<!-- JOBS-START -->old<!-- JOBS-END -->" content = content := by
    unfold replaceRegion
    rw [regexExec_old_document]
    simp only [List.nil_append, List.append_nil]
    rw [getSubstitution_of_no_dollar _ _ _ _ hd]
  unfold updateReadme
  simp only [hlen, if_false, hc, hdoc, hrep]
  cases sampleLines (List.take 2 (dedupe jobs)) <;> rfl

/-! ## Theorems on the renderer -/

set_option maxRecDepth 100000 in
/-- C6: evaluation of `updateReadme` on the document
`<!-- JOBS-START -->old<!-- JOBS-END -->` and one posting whose title contains `$&`.  The
replacement text is expanded by `replace`, the `$&` of the title becomes the region that was
matched, and the document written is not the generated block: it still holds the text
`old` of the replaced region. -/
theorem updateReadme_dollar_pattern_expanded :
    (updateReadme "11/5/2026, 12:00:00 AM"
        [{ title := "Technical Writer ($& team)", company := "Postman",
           location := .str "Remote", url := .str "https://example.com/1",
           source := .str "https://example.com/1" }]
        { readme := some "<!-- JOBS-START -->old<!-- JOBS-END -->", effects := [] }).world.readme
      = some ("<!-- JOBS-START -->\n#  **Live Technical Writing Jobs** (1 found)\n\n"
          ++ "| Company | Job Title | Location | Apply |\n"
          ++ "|---------|-----------|----------|--------|\n| --- | --- | --- | --- |\n"
          ++ "| **Postman** | **[Technical Writer (<!-- JOBS-START -->old<!-- JOBS-END --> team)]"
          ++ "(https://example.com/1)** | Remote | [ Apply](https://example.com/1) |\n\n"
          ++ "**Sources:** RemoteOK, Postman, Twilio, GitLab  \n"
          ++ "*Updated: 11/5/2026, 12:00:00 AM UTC*  \n<!-- JOBS-END -->") ∧
    renderContent "11/5/2026, 12:00:00 AM"
        (dedupe [{ title := "Technical Writer ($& team)", company := "Postman",
                   location := .str "Remote", url := .str "https://example.com/1",
                   source := .str "https://example.com/1" }])
      = some ("<!-- JOBS-START -->\n#  **Live Technical Writing Jobs** (1 found)\n\n"
          ++ "| Company | Job Title | Location | Apply |\n"
          ++ "|---------|-----------|----------|--------|\n| --- | --- | --- | --- |\n"
          ++ "| **Postman** | **[Technical Writer ($& team)]"
          ++ "(https://example.com/1)** | Remote | [ Apply](https://example.com/1) |\n\n"
          ++ "**Sources:** RemoteOK, Postman, Twilio, GitLab  \n"
          ++ "*Updated: 11/5/2026, 12:00:00 AM UTC*  \n<!-- JOBS-END -->") ∧
    (updateReadme "11/5/2026, 12:00:00 AM"
        [{ title := "Technical Writer ($& team)", company := "Postman",
           location := .str "Remote", url := .str "https://example.com/1",
           source := .str "https://example.com/1" }]
        { readme := some "<!-- JOBS-START -->old<!-- JOBS-END -->", effects := [] }).world.readme
      ≠ renderContent "11/5/2026, 12:00:00 AM"
          (dedupe [{ title := "Technical Writer ($& team)", company := "Postman",
                     location := .str "Remote", url := .str "https://example.com/1",
                     source := .str "https://example.com/1" }]) := by
  refine ⟨?_, ?_, ?_⟩ <;> decide

/-- C7: on the empty posting list `updateReadme` only writes its message to the console: the
file is neither read nor written, its content after the call is its content before, for
every content, and the call ends normally. -/
theorem updateReadme_empty_list (now : String) (w : World) :
    (updateReadme now [] w).world.readme = w.readme ∧
    (updateReadme now [] w).world.effects
      = w.effects ++ [.log "⚠️ No real writing jobs found"] ∧
    (updateReadme now [] w).rejected = false :=
  ⟨rfl, rfl, rfl⟩

/-! ## Lemmas on the regular expression -/

/-- A literal consumes a prefix of the input. -/
theorem matchLit_sound (lit : List Char) :
    ∀ (s m r : List Char), matchLit lit s = some (m, r) → s = m ++ r := by
  induction lit with
  | nil =>
    intro s m r h
    cases s <;> simp [matchLit] at h <;> obtain ⟨h1, h2⟩ := h <;> subst h1 <;> subst h2 <;> rfl
  | cons p ps ih =>
    intro s m r h
    cases s with
    | nil => simp [matchLit] at h
    | cons c cs =>
      unfold matchLit at h
      by_cases hc : ciEq p c = true
      · simp only [hc, if_true] at h
        cases hrec : matchLit ps cs with
        | none => simp [hrec] at h
        | some mr =>
          obtain ⟨m', r'⟩ := mr
          simp only [hrec, Option.some.injEq, Prod.mk.injEq] at h
          obtain ⟨h1, h2⟩ := h
          subst h1; subst h2
          rw [ih cs m' r' hrec]
          rfl
      · simp [hc] at h

/-- The white space consumed and the rest make up the input. -/
theorem matchSpaces_sound (s : List Char) : s = (matchSpaces s).1 ++ (matchSpaces s).2 := by
  induction s with
  | nil => rfl
  | cons c cs ih =>
    unfold matchSpaces
    by_cases hc : isJsSpace c = true
    · simp only [hc, if_true, List.cons_append]
      rw [← ih]
    · simp [hc]

/-- A marker consumes a prefix of the input. -/
theorem matchMarker_sound (word : String) (s m r : List Char)
    (h : matchMarker word s = some (m, r)) : s = m ++ r := by
  unfold matchMarker at h
  cases h1 : matchLit "<!--".data s with
  | none => simp [h1] at h
  | some mr1 =>
    obtain ⟨m1, r1⟩ := mr1
    simp only [h1] at h
    cases h2 : matchLit word.data (matchSpaces r1).2 with
    | none => simp [h2] at h
    | some mr2 =>
      obtain ⟨m2, r2⟩ := mr2
      simp only [h2] at h
      cases h3 : matchLit "-->".data (matchSpaces r2).2 with
      | none => simp [h3] at h
      | some mr3 =>
        obtain ⟨m3, r3⟩ := mr3
        simp only [h3, Option.some.injEq, Prod.mk.injEq] at h
        obtain ⟨hm, hr⟩ := h
        subst hm; subst hr
        have e1 := matchLit_sound _ _ _ _ h1
        have e2 := matchLit_sound _ _ _ _ h2
        have e3 := matchLit_sound _ _ _ _ h3
        have s1 := matchSpaces_sound r1
        have s2 := matchSpaces_sound r2
        generalize matchSpaces r1 = sp1 at s1 e2
        generalize matchSpaces r2 = sp2 at s2 e3
        rw [e1, s1, e2, s2, e3]
        simp only [List.append_assoc]

/-- The lazy skip and the end marker consume a prefix of the input. -/
theorem matchLazyToEnd_sound :
    ∀ (s m r : List Char), matchLazyToEnd s = some (m, r) → s = m ++ r := by
  intro s
  induction s with
  | nil => intro m r h; simp [matchLazyToEnd] at h
  | cons c cs ih =>
    intro m r h
    unfold matchLazyToEnd at h
    cases hm : matchMarker "JOBS-END" (c :: cs) with
    | some mr =>
      obtain ⟨m', r'⟩ := mr
      simp only [hm, Option.some.injEq, Prod.mk.injEq] at h
      obtain ⟨h1, h2⟩ := h
      subst h1; subst h2
      exact matchMarker_sound _ _ _ _ hm
    | none =>
      simp only [hm] at h
      cases hrec : matchLazyToEnd cs with
      | none => simp [hrec] at h
      | some mr =>
        obtain ⟨m', r'⟩ := mr
        simp only [hrec, Option.some.injEq, Prod.mk.injEq] at h
        obtain ⟨h1, h2⟩ := h
        subst h1; subst h2
        rw [ih m' r' hrec]
        rfl

/-- The whole pattern consumes a prefix of the input. -/
theorem matchRegion_sound (s m r : List Char) (h : matchRegion s = some (m, r)) :
    s = m ++ r := by
  unfold matchRegion at h
  cases h1 : matchMarker "JOBS-START" s with
  | none => simp [h1] at h
  | some mr1 =>
    obtain ⟨m1, r1⟩ := mr1
    simp only [h1] at h
    cases h2 : matchLazyToEnd r1 with
    | none => simp [h2] at h
    | some mr2 =>
      obtain ⟨m2, r2⟩ := mr2
      simp only [h2, Option.some.injEq, Prod.mk.injEq] at h
      obtain ⟨hm, hr⟩ := h
      subst hm; subst hr
      rw [matchMarker_sound _ _ _ _ h1, matchLazyToEnd_sound _ _ _ h2]
      simp only [List.append_assoc]

/-- The first match splits the input in the text before it, the region matched and the text
after it; the region is a match of the pattern and the pattern matches at no earlier
position. -/
theorem regexExec_sound :
    ∀ (s before matched after : List Char), regexExec s = some (before, matched, after) →
      s = before ++ matched ++ after ∧ matchRegion (matched ++ after) = some (matched, after) ∧
      ∀ (u v : List Char), before = u ++ v → v ≠ [] →
        matchRegion (v ++ matched ++ after) = none := by
  intro s
  induction s with
  | nil => intro b m a h; simp [regexExec] at h
  | cons c cs ih =>
    intro b m a h
    unfold regexExec at h
    cases hm : matchRegion (c :: cs) with
    | some mr =>
      obtain ⟨m', r'⟩ := mr
      simp only [hm, Option.some.injEq, Prod.mk.injEq] at h
      obtain ⟨h1, h2, h3⟩ := h
      subst h1; subst h2; subst h3
      have hs := matchRegion_sound _ _ _ hm
      refine ⟨by simpa using hs, by rw [← hs]; exact hm, ?_⟩
      intro u v huv hv
      have : v = [] := by
        have := congrArg List.length huv
        simp at this
        exact List.length_eq_zero.mp (by omega)
      exact absurd this hv
    | none =>
      simp only [hm] at h
      cases hrec : regexExec cs with
      | none => simp [hrec] at h
      | some t =>
        obtain ⟨b', m', a'⟩ := t
        simp only [hrec, Option.some.injEq, Prod.mk.injEq] at h
        obtain ⟨h1, h2, h3⟩ := h
        subst h1; subst h2; subst h3
        obtain ⟨e1, e2, e3⟩ := ih b' m' a' hrec
        refine ⟨by rw [e1]; rfl, e2, ?_⟩
        intro u v huv hv
        cases u with
        | nil =>
          simp only [List.nil_append] at huv
          subst huv
          have : c :: b' ++ m' ++ a' = c :: cs := by rw [e1]; rfl
          rw [this]
          exact hm
        | cons x u' =>
          simp only [List.cons_append, List.cons.injEq] at huv
          exact e3 u' v huv.2 hv

/-- The pattern matches nowhere in a text exactly when it matches at the front of none of the
ends of the text. -/
theorem regexExec_eq_none_iff (s : List Char) :
    regexExec s = none ↔ ∀ (u v : List Char), s = u ++ v → matchRegion v = none := by
  induction s with
  | nil =>
    constructor
    · intro _ u v h
      have hv : v = [] := (List.append_eq_nil.mp h.symm).2
      subst hv
      rfl
    · intro _; rfl
  | cons c cs ih =>
    constructor
    · intro h u v huv
      unfold regexExec at h
      cases hm : matchRegion (c :: cs) with
      | some mr => obtain ⟨m', r'⟩ := mr; simp [hm] at h
      | none =>
        simp only [hm] at h
        have hrec : regexExec cs = none := by
          cases hr : regexExec cs with
          | none => rfl
          | some t => obtain ⟨b', m', a'⟩ := t; simp [hr] at h
        cases u with
        | nil => simp only [List.nil_append] at huv; rw [← huv]; exact hm
        | cons x u' =>
          simp only [List.cons_append, List.cons.injEq] at huv
          exact (ih.mp hrec) u' v huv.2
    · intro h
      unfold regexExec
      have hm : matchRegion (c :: cs) = none := h [] (c :: cs) rfl
      have hrec : regexExec cs = none := ih.mpr (fun u v huv => h (c :: u) v (by rw [huv]; rfl))
      simp only [hm, hrec]

/-! ## Lemmas on the runs of the renderer -/

/-- A run on a non-empty list whose block cannot be rendered (a conversion to string throws)
ends before the file is read: the environment is left as it was. -/
theorem updateReadme_of_throw (now : String) (jobs : List Posting) (w : World)
    (hne : jobs ≠ []) (hc : renderContent now (dedupe jobs) = none) :
    updateReadme now jobs w = { world := w, rejected := true } := by
  have hlen : jobs.length ≠ 0 := fun h => hne (List.length_eq_zero.mp h)
  unfold updateReadme
  simp only [hlen, if_false, hc]

/-- A run on a non-empty list whose block is rendered, on a readable file: the file is read
once and written once, with the result of `replace`, and the other effects are console
lines. -/
theorem updateReadme_of_rendered (now : String) (jobs : List Posting) (w : World)
    (readme content : String) (hne : jobs ≠ []) (hdoc : w.readme = some readme)
    (hc : renderContent now (dedupe jobs) = some content) :
    ∃ logs : List Effect, (∀ e ∈ logs, ∃ line, e = .log line) ∧
      (updateReadme now jobs w).world =
        { readme := some (replaceRegion readme content),
          effects := w.effects ++ [.readFile, .writeFile (replaceRegion readme content)]
            ++ logs } := by
  have hlen : jobs.length ≠ 0 := fun h => hne (List.length_eq_zero.mp h)
  unfold updateReadme
  simp only [hlen, if_false, hc, hdoc]
  cases sampleLines (List.take 2 (dedupe jobs)) with
  | none =>
    refine ⟨[.log ("✅ TABLE FIXED: " ++ toString (dedupe jobs).length ++ " CLEAN jobs written")],
      ?_, ?_⟩
    · intro e he
      exact ⟨_, List.mem_singleton.mp he⟩
    · simp
  | some lines =>
    refine ⟨[.log ("✅ TABLE FIXED: " ++ toString (dedupe jobs).length ++ " CLEAN jobs written"),
      .log ("📋 Sample: " ++ joinWith "\n" lines)], ?_, ?_⟩
    · intro e he
      simp only [List.mem_cons, List.mem_singleton, List.not_mem_nil, or_false] at he
      rcases he with h | h
      · exact ⟨_, h⟩
      · exact ⟨_, h⟩
    · simp

/-- The result of `replace` on a text in which the pattern first matches the region
`matched` between `before` and `after`. -/
theorem replaceRegion_of_match (readme content : String) (before matched after : List Char)
    (h : regexExec readme.data = some (before, matched, after)) :
    replaceRegion readme content
      = ⟨before ++ getSubstitution matched before after content.data ++ after⟩ := by
  unfold replaceRegion
  rw [h]

/-- The result of `replace` on a text in which the pattern does not match. -/
theorem replaceRegion_of_no_match (readme content : String)
    (h : regexExec readme.data = none) : replaceRegion readme content = readme := by
  unfold replaceRegion
  rw [h]

/-- The rows rendered are as many as the postings. -/
theorem renderRows_length :
    ∀ (jobs : List Posting) (rows : List String), renderRows jobs = some rows →
      rows.length = jobs.length := by
  intro jobs
  induction jobs with
  | nil => intro rows h; simp [renderRows] at h; subst h; rfl
  | cons job rest ih =>
    intro rows h
    unfold renderRows at h
    cases hr : renderRow job with
    | none => simp [hr] at h
    | some r =>
      cases hrs : renderRows rest with
      | none => simp [hr, hrs] at h
      | some rs =>
        simp only [hr, hrs, Option.some.injEq] at h
        subst h
        simp [ih rs hrs]

/-! ## Theorems on the renderer: the marker region -/

/-- C11: on a document that the pattern first matches in the region `R`, between the text
`P` before it and the text `S` after it, a run of `updateReadme` on a non-empty posting list
leaves a document that starts with `P` and ends with `S`, and every write of the run has
such a content: only the region is rewritten. -/
theorem updateReadme_rewrites_only_the_region (now : String) (jobs : List Posting) (w : World)
    (doc : String) (P R S : List Char) (hne : jobs ≠ []) (hdoc : w.readme = some doc)
    (hre : regexExec doc.data = some (P, R, S)) :
    doc.data = P ++ R ++ S ∧
    ∃ X : List Char, (updateReadme now jobs w).world.readme = some ⟨P ++ X ++ S⟩ ∧
      ∀ c, Effect.writeFile c ∈ (updateReadme now jobs w).world.effects →
        Effect.writeFile c ∈ w.effects ∨ c = ⟨P ++ X ++ S⟩ := by
  have hsplit : doc.data = P ++ R ++ S := (regexExec_sound _ _ _ _ hre).1
  refine ⟨hsplit, ?_⟩
  cases hc : renderContent now (dedupe jobs) with
  | none =>
    rw [updateReadme_of_throw now jobs w hne hc]
    refine ⟨R, ?_, fun c hcw => Or.inl hcw⟩
    show w.readme = _
    rw [hdoc, ← hsplit]
  | some content =>
    obtain ⟨logs, hlogs, hw⟩ := updateReadme_of_rendered now jobs w doc content hne hdoc hc
    rw [hw, replaceRegion_of_match doc content P R S hre]
    refine ⟨getSubstitution R P S content.data, rfl, ?_⟩
    intro c hcw
    simp only [List.mem_append, List.mem_cons, List.mem_singleton, List.not_mem_nil,
      or_false] at hcw
    rcases hcw with (hold | hnew) | hlog
    · exact Or.inl hold
    · rcases hnew with h | h
      · exact absurd h (by simp)
      · right
        injection h
    · obtain ⟨line, hl⟩ := hlogs _ hlog
      exact absurd hl (by simp)

/-- Witness of C11: a document with text before and after the region. -/
theorem updateReadme_rewrites_only_the_region_witness :
    "# Me\n<!-- jobs-start -->old<!--JOBS-END-->\nbye".data
      = "# Me\n".data ++ "<!-- jobs-start -->old<!--JOBS-END-->".data ++ "\nbye".data ∧
    ∃ X : List Char,
      (updateReadme "11/5/2026, 12:00:00 AM"
        [{ title := "Technical Writer", company := "Postman", location := .str "Remote",
           url := .str "https://example.com/1", source := .str "https://example.com/1" }]
        { readme := some "# Me\n<!-- jobs-start -->old<!--JOBS-END-->\nbye",
          effects := [] }).world.readme
        = some ⟨"# Me\n".data ++ X ++ "\nbye".data⟩ ∧
      ∀ c, Effect.writeFile c ∈
          (updateReadme "11/5/2026, 12:00:00 AM"
            [{ title := "Technical Writer", company := "Postman", location := .str "Remote",
               url := .str "https://example.com/1", source := .str "https://example.com/1" }]
            { readme := some "# Me\n<!-- jobs-start -->old<!--JOBS-END-->\nbye",
              effects := [] }).world.effects →
        Effect.writeFile c ∈ ([] : List Effect) ∨ c = ⟨"# Me\n".data ++ X ++ "\nbye".data⟩ :=
  updateReadme_rewrites_only_the_region "11/5/2026, 12:00:00 AM"
    [{ title := "Technical Writer", company := "Postman", location := .str "Remote",
       url := .str "https://example.com/1", source := .str "https://example.com/1" }]
    { readme := some "# Me\n<!-- jobs-start -->old<!--JOBS-END-->\nbye", effects := [] }
    "# Me\n<!-- jobs-start -->old<!--JOBS-END-->\nbye"
    "# Me\n".data "<!-- jobs-start -->old<!--JOBS-END-->".data "\nbye".data
    (by simp) rfl (by decide)

/-- C18: on a document in which the pattern matches nowhere, a run of `updateReadme` on a
non-empty posting list leaves the document as it was read, and what the run writes to the
file is the document read. -/
theorem updateReadme_without_region (now : String) (jobs : List Posting) (w : World)
    (doc : String) (hne : jobs ≠ []) (hdoc : w.readme = some doc)
    (hre : regexExec doc.data = none) :
    (updateReadme now jobs w).world.readme = some doc ∧
    (∀ c, Effect.writeFile c ∈ (updateReadme now jobs w).world.effects →
      Effect.writeFile c ∈ w.effects ∨ c = doc) ∧
    (∀ content, renderContent now (dedupe jobs) = some content →
      Effect.writeFile doc ∈ (updateReadme now jobs w).world.effects) := by
  cases hc : renderContent now (dedupe jobs) with
  | none =>
    rw [updateReadme_of_throw now jobs w hne hc]
    exact ⟨hdoc, fun c hcw => Or.inl hcw, fun content h => by simp at h⟩
  | some content =>
    obtain ⟨logs, hlogs, hw⟩ := updateReadme_of_rendered now jobs w doc content hne hdoc hc
    rw [hw, replaceRegion_of_no_match doc content hre]
    refine ⟨rfl, ?_, ?_⟩
    · intro c hcw
      simp only [List.mem_append, List.mem_cons, List.mem_singleton, List.not_mem_nil,
        or_false] at hcw
      rcases hcw with (hold | hnew) | hlog
      · exact Or.inl hold
      · rcases hnew with h | h
        · exact absurd h (by simp)
        · right
          injection h
      · obtain ⟨line, hl⟩ := hlogs _ hlog
        exact absurd hl (by simp)
    · intro _ _
      simp

/-- Witness of C18: a document with a start marker and no end marker. -/
theorem updateReadme_without_region_witness :
    (updateReadme "11/5/2026, 12:00:00 AM"
        [{ title := "Technical Writer", company := "Postman", location := .str "Remote",
           url := .str "https://example.com/1", source := .str "https://example.com/1" }]
        { readme := some "# Me\n<!-- JOBS-START -->\nno end", effects := [] }).world.readme
      = some "# Me\n<!-- JOBS-START -->\nno end" ∧
    (∀ c, Effect.writeFile c ∈
        (updateReadme "11/5/2026, 12:00:00 AM"
          [{ title := "Technical Writer", company := "Postman", location := .str "Remote",
             url := .str "https://example.com/1", source := .str "https://example.com/1" }]
          { readme := some "# Me\n<!-- JOBS-START -->\nno end", effects := [] }).world.effects →
      Effect.writeFile c ∈ ([] : List Effect) ∨ c = "# Me\n<!-- JOBS-START -->\nno end") ∧
    (∀ content,
      renderContent "11/5/2026, 12:00:00 AM"
        (dedupe [{ title := "Technical Writer", company := "Postman",
                   location := .str "Remote", url := .str "https://example.com/1",
                   source := .str "https://example.com/1" }]) = some content →
      Effect.writeFile "# Me\n<!-- JOBS-START -->\nno end" ∈
        (updateReadme "11/5/2026, 12:00:00 AM"
          [{ title := "Technical Writer", company := "Postman", location := .str "Remote",
             url := .str "https://example.com/1", source := .str "https://example.com/1" }]
          { readme := some "# Me\n<!-- JOBS-START -->\nno end",
            effects := [] }).world.effects) :=
  updateReadme_without_region "11/5/2026, 12:00:00 AM"
    [{ title := "Technical Writer", company := "Postman", location := .str "Remote",
       url := .str "https://example.com/1", source := .str "https://example.com/1" }]
    { readme := some "# Me\n<!-- JOBS-START -->\nno end", effects := [] }
    "# Me\n<!-- JOBS-START -->\nno end" (by simp) rfl (by decide)

/-! ## Lemmas on the operator `||` -/

/-- A truthy left operand is the value of `a || b`. -/
theorem or_of_truthy (a b : JVal) (h : a.truthy = true) : a.or b = a := by
  unfold JVal.or
  rw [if_pos h]

/-- With a falsy left operand the value of `a || b` is the right operand. -/
theorem or_of_falsy (a b : JVal) (h : a.truthy = false) : a.or b = b := by
  unfold JVal.or
  rw [h]
  rfl

/-! ## Lemmas on the fields of a posting -/

/-- An entry whose visit pushes a posting is an object, and the fields of the posting are
the values of lines 79-85 computed from the fields of the object. -/
theorem visitJob_fields (source : SourceDescriptor) (job : JVal) (p : Posting)
    (h : visitJob source [] job = some [p]) :
    ∃ fs, job = .obj fs ∧
      JVal.str p.title
        = ((lookupField "position" fs).or (lookupField "title" fs)).or (lookupField "name" fs) ∧
      matchesKeyword (toLowerCase p.title) = true ∧
      p.company = source.name ∧
      deriveLocation (.obj fs) = some p.location ∧
      p.url = (((lookupField "apply_url" fs).or (lookupField "absolute_url" fs)).or
                (lookupField "url" fs)).or (.str source.url) ∧
      p.source = (lookupField "url" fs).or (.str source.url) := by
  rcases visitJob_some source [] [p] job h with hnil | ⟨q, hq, _, hraw, hm⟩
  · simp at hnil
  · have hpq : p = q := by simpa using hq
    subst hpq
    cases job with
    | obj fs =>
      refine ⟨fs, rfl, ?_⟩
      have hraw' : ((lookupField "position" fs).or (lookupField "title" fs)).or
          (lookupField "name" fs) = .str p.title := by
        simpa [rawTitle, JVal.get] using hraw
      refine ⟨hraw'.symm, hm, ?_⟩
      unfold visitJob at h
      simp only [rawTitle, JVal.get, Option.bind_eq_bind, Option.some_bind, Option.pure_def,
        hraw'] at h
      have htruthy : (JVal.str p.title).truthy = true := by
        cases ht : (JVal.str p.title).truthy with
        | true => rfl
        | false =>
          have : p.title = "" := by simpa [JVal.truthy] using ht
          rw [this] at hm
          exact absurd hm (by decide)
      simp only [JVal.or, htruthy, if_true, callToLowerCase, Option.some_bind, hm] at h
      cases hloc : deriveLocation (.obj fs) with
      | none => simp [hloc] at h
      | some location =>
        simp only [hloc, Option.some_bind, List.nil_append, Option.some.injEq,
          List.cons.injEq, and_true] at h
        rw [← h]
        simp [JVal.or]
    | undefined => simp [rawTitle, JVal.get] at hraw
    | null => simp [rawTitle, JVal.get] at hraw
    | bool b => simp [rawTitle, JVal.get, JVal.or, JVal.truthy] at hraw
    | num n => simp [rawTitle, JVal.get, JVal.or, JVal.truthy] at hraw
    | str s => simp [rawTitle, JVal.get, JVal.or, JVal.truthy] at hraw
    | arr xs => simp [rawTitle, JVal.get, JVal.or, JVal.truthy] at hraw

/-- A returned posting and the object it was made from. -/
theorem findJobs_fields (data : Option JVal) (source : SourceDescriptor) (p : Posting)
    (h : p ∈ findJobs data source) :
    ∃ json items fs, data = some json ∧ jobListOf json = some (.arr items) ∧
      JVal.obj fs ∈ items ∧
      JVal.str p.title
        = ((lookupField "position" fs).or (lookupField "title" fs)).or (lookupField "name" fs) ∧
      matchesKeyword (toLowerCase p.title) = true ∧
      p.company = source.name ∧
      deriveLocation (.obj fs) = some p.location ∧
      p.url = (((lookupField "apply_url" fs).or (lookupField "absolute_url" fs)).or
                (lookupField "url" fs)).or (.str source.url) ∧
      p.source = (lookupField "url" fs).or (.str source.url) := by
  obtain ⟨json, items, job, h1, h2, h3, h4, _, _⟩ := findJobs_mem data source p h
  obtain ⟨fs, hfs, rest⟩ := visitJob_fields source job p h4
  subst hfs
  exact ⟨json, items, fs, h1, h2, h3, rest⟩

/-- The posting made of the sample entry. -/
theorem samplePosting_mem : samplePosting ∈ findJobs (some (.arr [sampleEntry])) postman :=
  List.mem_singleton.mpr rfl

/-! ## Theorems on the fields of a posting -/

/-- C12, as stated, fails: the entry `{"title":"Technical Writer","apply_url":
"https://example.com/apply"}` of RemoteOK yields a posting whose apply URL is the entry's
`apply_url` and whose source URL is the URL of the source. -/
theorem findJobs_source_url_is_not_apply_url :
    ¬ ∀ (data : Option JVal) (source : SourceDescriptor) (p : Posting),
        p ∈ findJobs data source → p.source = p.url := by
  intro h
  have hp := h
    (some (.arr [.obj [("title", .str "Technical Writer"),
                       ("apply_url", .str "https://example.com/apply")]]))
    { name := "RemoteOK", url := "https://remoteok.com/api", type := "api" }
    { title := "Technical Writer", company := "RemoteOK", location := .str "Remote",
      url := .str "https://example.com/apply", source := .str "https://remoteok.com/api" }
    (List.mem_singleton.mpr rfl)
  injection hp with hs
  exact absurd hs (by decide)

/-- C12, amended: the source URL of a posting is the value of the entry's field `url` when
that value is truthy, else the URL of the source descriptor; the fields `apply_url` and
`absolute_url` have no part in it, and it is the apply URL when neither of them is truthy. -/
theorem findJobs_source_url (data : Option JVal) (source : SourceDescriptor) (p : Posting)
    (h : p ∈ findJobs data source) :
    ∃ json items fs, data = some json ∧ jobListOf json = some (.arr items) ∧
      JVal.obj fs ∈ items ∧
      ((lookupField "url" fs).truthy = true → p.source = lookupField "url" fs) ∧
      ((lookupField "url" fs).truthy = false → p.source = .str source.url) ∧
      ((lookupField "apply_url" fs).truthy = false →
        (lookupField "absolute_url" fs).truthy = false → p.source = p.url) := by
  obtain ⟨json, items, fs, h1, h2, h3, _, _, _, _, hurl, hsrc⟩ := findJobs_fields data source p h
  refine ⟨json, items, fs, h1, h2, h3, ?_, ?_, ?_⟩
  · intro ht
    rw [hsrc, or_of_truthy _ _ ht]
  · intro ht
    rw [hsrc, or_of_falsy _ _ ht]
  · intro ha hb
    rw [hsrc, hurl, or_of_falsy _ _ ha, or_of_falsy _ _ hb]

/-- Witness of C12 amended: the sample entry has a truthy `url`. -/
theorem findJobs_source_url_witness :
    ∃ json items fs, some (JVal.arr [sampleEntry]) = some json ∧
      jobListOf json = some (.arr items) ∧ JVal.obj fs ∈ items ∧
      ((lookupField "url" fs).truthy = true → samplePosting.source = lookupField "url" fs) ∧
      ((lookupField "url" fs).truthy = false → samplePosting.source = .str postman.url) ∧
      ((lookupField "apply_url" fs).truthy = false →
        (lookupField "absolute_url" fs).truthy = false →
        samplePosting.source = samplePosting.url) :=
  findJobs_source_url (some (.arr [sampleEntry])) postman samplePosting samplePosting_mem

/-- C13, as stated, fails: in the entry `{"title":"Technical Writer","apply_url":null,
"url":"https://example.com/job"}` the first field present is `apply_url`, and the apply URL
of the posting is the value of `url`. -/
theorem findJobs_apply_url_skips_present_null :
    ¬ ∀ (source : SourceDescriptor) (fs : List (String × JVal)) (p : Posting),
        p ∈ findJobs (some (.arr [.obj fs])) source →
        p.url = (specFirstPresent ["apply_url", "absolute_url", "url"] fs).getD
          (.str source.url) := by
  intro h
  have hp := h
    { name := "RemoteOK", url := "https://remoteok.com/api", type := "api" }
    [("title", .str "Technical Writer"), ("apply_url", .null),
     ("url", .str "https://example.com/job")]
    { title := "Technical Writer", company := "RemoteOK", location := .str "Remote",
      url := .str "https://example.com/job", source := .str "https://example.com/job" }
    (List.mem_singleton.mpr rfl)
  have hspec : (specFirstPresent ["apply_url", "absolute_url", "url"]
      [("title", JVal.str "Technical Writer"), ("apply_url", JVal.null),
       ("url", JVal.str "https://example.com/job")]).getD (.str "https://remoteok.com/api")
      = .null := rfl
  rw [hspec] at hp
  cases hp

/-- C13, amended: the apply URL of a posting is the value of the first truthy of the entry's
fields `apply_url`, `absolute_url`, `url`, in that order, and it is the URL of the source
descriptor when none of the three is truthy. -/
theorem findJobs_apply_url (data : Option JVal) (source : SourceDescriptor) (p : Posting)
    (h : p ∈ findJobs data source) :
    ∃ json items fs, data = some json ∧ jobListOf json = some (.arr items) ∧
      JVal.obj fs ∈ items ∧
      ((lookupField "apply_url" fs).truthy = true → p.url = lookupField "apply_url" fs) ∧
      ((lookupField "apply_url" fs).truthy = false →
        (lookupField "absolute_url" fs).truthy = true →
        p.url = lookupField "absolute_url" fs) ∧
      ((lookupField "apply_url" fs).truthy = false →
        (lookupField "absolute_url" fs).truthy = false →
        (lookupField "url" fs).truthy = true → p.url = lookupField "url" fs) ∧
      ((lookupField "apply_url" fs).truthy = false →
        (lookupField "absolute_url" fs).truthy = false →
        (lookupField "url" fs).truthy = false → p.url = .str source.url) := by
  obtain ⟨json, items, fs, h1, h2, h3, _, _, _, _, hurl, _⟩ := findJobs_fields data source p h
  refine ⟨json, items, fs, h1, h2, h3, ?_, ?_, ?_, ?_⟩
  · intro ha
    rw [hurl, or_of_truthy _ _ ha, or_of_truthy _ _ ha, or_of_truthy _ _ ha]
  · intro ha hb
    rw [hurl, or_of_falsy _ _ ha, or_of_truthy _ _ hb, or_of_truthy _ _ hb]
  · intro ha hb hu
    rw [hurl, or_of_falsy _ _ ha, or_of_falsy _ _ hb, or_of_truthy _ _ hu]
  · intro ha hb hu
    rw [hurl, or_of_falsy _ _ ha, or_of_falsy _ _ hb, or_of_falsy _ _ hu]

/-- Witness of C13 amended: in the sample entry `apply_url` is the empty string and
`absolute_url` is the first truthy field. -/
theorem findJobs_apply_url_witness :
    ∃ json items fs, some (JVal.arr [sampleEntry]) = some json ∧
      jobListOf json = some (.arr items) ∧ JVal.obj fs ∈ items ∧
      ((lookupField "apply_url" fs).truthy = true →
        samplePosting.url = lookupField "apply_url" fs) ∧
      ((lookupField "apply_url" fs).truthy = false →
        (lookupField "absolute_url" fs).truthy = true →
        samplePosting.url = lookupField "absolute_url" fs) ∧
      ((lookupField "apply_url" fs).truthy = false →
        (lookupField "absolute_url" fs).truthy = false →
        (lookupField "url" fs).truthy = true → samplePosting.url = lookupField "url" fs) ∧
      ((lookupField "apply_url" fs).truthy = false →
        (lookupField "absolute_url" fs).truthy = false →
        (lookupField "url" fs).truthy = false → samplePosting.url = .str postman.url) :=
  findJobs_apply_url (some (.arr [sampleEntry])) postman samplePosting samplePosting_mem

/-- The location computed from an entry that is an object, by the value of its field
`location`. -/
theorem deriveLocation_obj (fs : List (String × JVal)) (result : JVal)
    (h : deriveLocation (.obj fs) = some result) :
    ((lookupField "location" fs).truthy = false → result = .str "Remote") ∧
    (∀ s, lookupField "location" fs = .str s → s ≠ "" → result = .str s) ∧
    (∀ lf, lookupField "location" fs = .obj lf →
      (lookupField "country" lf).truthy = false →
      result = ((lookupField "city" lf).or (lookupField "name" lf)).or (.str "Remote")) ∧
    (∀ lf, lookupField "location" fs = .obj lf →
      (lookupField "country" lf).truthy = true →
      ∃ base suffix,
        (((lookupField "city" lf).or (lookupField "name" lf)).or (.str "Remote")).toStr
          = some base ∧
        (lookupField "country" lf).toStr = some suffix ∧
        result = .str (base ++ (", " ++ suffix))) ∧
    ((∀ s, lookupField "location" fs ≠ .str s) → (∀ lf, lookupField "location" fs ≠ .obj lf) →
      result = .str "Remote") := by
  unfold deriveLocation at h
  simp only [JVal.get, Option.bind_eq_bind, Option.some_bind, Option.pure_def] at h
  cases hloc : lookupField "location" fs with
  | undefined =>
    simp only [hloc, JVal.truthy, Bool.false_eq_true, if_false, Option.some.injEq] at h
    subst h
    refine ⟨fun _ => rfl, ?_, ?_, ?_, fun _ _ => rfl⟩ <;> intros <;> simp_all
  | null =>
    simp only [hloc, JVal.truthy, Bool.false_eq_true, if_false, Option.some.injEq] at h
    subst h
    refine ⟨fun _ => rfl, ?_, ?_, ?_, fun _ _ => rfl⟩ <;> intros <;> simp_all
  | bool v =>
    have hr : result = .str "Remote" := by
      cases v <;> simp [hloc, JVal.truthy] at h <;> exact h.symm
    subst hr
    refine ⟨fun _ => rfl, ?_, ?_, ?_, fun _ _ => rfl⟩ <;> intros <;> simp_all
  | num n =>
    have hr : result = .str "Remote" := by
      cases ht : (JVal.num n).truthy <;> simp [hloc, ht] at h <;> exact h.symm
    subst hr
    refine ⟨fun _ => rfl, ?_, ?_, ?_, fun _ _ => rfl⟩ <;> intros <;> simp_all
  | arr xs =>
    have hr : result = .str "Remote" := by
      simp [hloc, JVal.truthy, JVal.get, JVal.or] at h
      exact h.symm
    subst hr
    refine ⟨fun _ => rfl, ?_, ?_, ?_, fun _ _ => rfl⟩ <;> intros <;> simp_all
  | str s =>
    refine ⟨?_, ?_, ?_, ?_, ?_⟩
    · intro ht
      simp only [hloc, ht, Bool.false_eq_true, if_false, Option.some.injEq] at h
      exact h.symm
    · intro s' hs' hne
      injection hs' with hs'
      subst hs'
      have ht : (JVal.str s).truthy = true := by simp [JVal.truthy, hne]
      simp only [hloc, ht, if_true, Option.some.injEq] at h
      exact h.symm
    · intro lf hlf; cases hlf
    · intro lf hlf; cases hlf
    · intro hs _; exact absurd rfl (hs s)
  | obj lf =>
    have ht : (JVal.obj lf).truthy = true := rfl
    simp only [hloc, ht, if_true, JVal.get, Option.some_bind] at h
    refine ⟨?_, ?_, ?_, ?_, ?_⟩
    · intro hf; rw [ht] at hf; cases hf
    · intro s hs; cases hs
    · intro lf' hlf hc
      injection hlf with hlf
      subst hlf
      simp only [hc, Bool.false_eq_true, if_false, Option.some.injEq] at h
      exact h.symm
    · intro lf' hlf hc
      injection hlf with hlf
      subst hlf
      simp only [hc, if_true] at h
      cases hsuf : (lookupField "country" lf).toStr with
      | none => simp [hsuf] at h
      | some suffix =>
        cases hbase : (((lookupField "city" lf).or (lookupField "name" lf)).or
            (.str "Remote")).toStr with
        | none => simp [hsuf, hbase] at h
        | some base =>
          simp only [hsuf, hbase, Option.some_bind, Option.some.injEq] at h
          exact ⟨base, suffix, rfl, rfl, h.symm⟩
    · intro _ ho; exact absurd rfl (ho lf)

/-- C14, as stated, fails: the location field of the entry `{"title":"Technical Writer",
"location":""}` is a string, and the location of the posting is not that string but
`Remote`. -/
theorem findJobs_location_empty_string_not_verbatim :
    ¬ ∀ (source : SourceDescriptor) (fs : List (String × JVal)) (s : String) (p : Posting),
        lookupField "location" fs = .str s →
        p ∈ findJobs (some (.arr [.obj fs])) source → p.location = .str s := by
  intro h
  have hp := h
    { name := "RemoteOK", url := "https://remoteok.com/api", type := "api" }
    [("title", .str "Technical Writer"), ("location", .str "")] ""
    { title := "Technical Writer", company := "RemoteOK", location := .str "Remote",
      url := .str "https://remoteok.com/api", source := .str "https://remoteok.com/api" }
    rfl (List.mem_singleton.mpr rfl)
  injection hp with hs
  exact absurd hs (by decide)

/-- C14, amended: the location of a posting is `Remote` when the entry's field `location` is
absent or falsy (`null`, the empty string) and when it is neither a string nor an object; it
is the field's value when that is a non-empty string; when the value is an object it is the
first truthy of the object's `city` and `name`, else `Remote`, and the text of the country
is appended after a comma and a space exactly when the object's field `country` is
truthy. -/
theorem findJobs_location (data : Option JVal) (source : SourceDescriptor) (p : Posting)
    (h : p ∈ findJobs data source) :
    ∃ json items fs, data = some json ∧ jobListOf json = some (.arr items) ∧
      JVal.obj fs ∈ items ∧
      ((lookupField "location" fs).truthy = false → p.location = .str "Remote") ∧
      (∀ s, lookupField "location" fs = .str s → s ≠ "" → p.location = .str s) ∧
      (∀ lf, lookupField "location" fs = .obj lf →
        (lookupField "country" lf).truthy = false →
        p.location = ((lookupField "city" lf).or (lookupField "name" lf)).or
          (.str "Remote")) ∧
      (∀ lf, lookupField "location" fs = .obj lf →
        (lookupField "country" lf).truthy = true →
        ∃ base suffix,
          (((lookupField "city" lf).or (lookupField "name" lf)).or (.str "Remote")).toStr
            = some base ∧
          (lookupField "country" lf).toStr = some suffix ∧
          p.location = .str (base ++ (", " ++ suffix))) ∧
      ((∀ s, lookupField "location" fs ≠ .str s) →
        (∀ lf, lookupField "location" fs ≠ .obj lf) → p.location = .str "Remote") := by
  obtain ⟨json, items, fs, h1, h2, h3, _, _, _, hloc, _, _⟩ := findJobs_fields data source p h
  exact ⟨json, items, fs, h1, h2, h3, deriveLocation_obj fs p.location hloc⟩

/-- Witness of C14 amended: the location of the sample entry is an object with a city and a
country. -/
theorem findJobs_location_witness :
    ∃ json items fs, some (JVal.arr [sampleEntry]) = some json ∧
      jobListOf json = some (.arr items) ∧ JVal.obj fs ∈ items ∧
      ((lookupField "location" fs).truthy = false → samplePosting.location = .str "Remote") ∧
      (∀ s, lookupField "location" fs = .str s → s ≠ "" → samplePosting.location = .str s) ∧
      (∀ lf, lookupField "location" fs = .obj lf →
        (lookupField "country" lf).truthy = false →
        samplePosting.location = ((lookupField "city" lf).or (lookupField "name" lf)).or
          (.str "Remote")) ∧
      (∀ lf, lookupField "location" fs = .obj lf →
        (lookupField "country" lf).truthy = true →
        ∃ base suffix,
          (((lookupField "city" lf).or (lookupField "name" lf)).or (.str "Remote")).toStr
            = some base ∧
          (lookupField "country" lf).toStr = some suffix ∧
          samplePosting.location = .str (base ++ (", " ++ suffix))) ∧
      ((∀ s, lookupField "location" fs ≠ .str s) →
        (∀ lf, lookupField "location" fs ≠ .obj lf) →
        samplePosting.location = .str "Remote") :=
  findJobs_location (some (.arr [sampleEntry])) postman samplePosting samplePosting_mem

/-! ## Theorems on the shape of the parsed value and on the title -/

/-- C15, as stated, fails: in `{"jobs":null,"data":[{"title":"Technical Writer"}]}` the field
`jobs` is present, and the list iterated is the value of the later field `data`, whose entry
yields a posting. -/
theorem jobListOf_skips_present_null :
    (¬ ∀ fs : List (String × JVal),
        jobListOf (.obj fs)
          = some ((specFirstPresent ["jobs", "data", "postings", "job_postings"] fs).getD
              (.arr []))) ∧
    findJobs (some (.obj [("jobs", .null), ("data", .arr [titled "Technical Writer"])]))
        { name := "RemoteOK", url := "https://remoteok.com/api", type := "api" }
      = [{ title := "Technical Writer", company := "RemoteOK", location := .str "Remote",
           url := .str "https://remoteok.com/api",
           source := .str "https://remoteok.com/api" }] := by
  refine ⟨?_, rfl⟩
  intro h
  have hp := h [("jobs", .null), ("data", .arr [titled "Technical Writer"])]
  have hcode : jobListOf (.obj [("jobs", .null), ("data", .arr [titled "Technical Writer"])])
      = some (.arr [titled "Technical Writer"]) := rfl
  have hspec : (specFirstPresent ["jobs", "data", "postings", "job_postings"]
      [("jobs", JVal.null), ("data", JVal.arr [titled "Technical Writer"])]).getD (.arr [])
      = .null := rfl
  rw [hcode, hspec] at hp
  injection hp with hp
  cases hp

/-- C15, amended: the list that `findJobs` iterates is the parsed value itself when it is a
list; for an object it is the value of the first truthy of the fields `jobs`, `data`,
`postings`, `job_postings`, in that order (a later field is used only when every earlier one
is absent or falsy), and the empty list when none is truthy, as it is for a number, a string
and a boolean; the entries of that list are visited in order and the first eight postings
returned; when the value is not a list, or the parsed value is `null`, no posting is
returned. -/
theorem jobListOf_first_truthy :
    (∀ items, jobListOf (.arr items) = some (.arr items)) ∧
    (∀ fs : List (String × JVal),
      jobListOf (.obj fs)
        = some (if (lookupField "jobs" fs).truthy then lookupField "jobs" fs
                else if (lookupField "data" fs).truthy then lookupField "data" fs
                else if (lookupField "postings" fs).truthy then lookupField "postings" fs
                else if (lookupField "job_postings" fs).truthy then
                  lookupField "job_postings" fs
                else .arr [])) ∧
    (∀ b, jobListOf (.bool b) = some (.arr [])) ∧
    (∀ n, jobListOf (.num n) = some (.arr [])) ∧
    (∀ s, jobListOf (.str s) = some (.arr [])) ∧
    (∀ json items source, jobListOf json = some (.arr items) →
      findJobs (some json) source = ((forEachJob source items []).1).take 8) ∧
    (∀ json v source, jobListOf json = some v → (∀ items, v ≠ .arr items) →
      findJobs (some json) source = []) ∧
    (∀ source, findJobs (some .null) source = []) := by
  refine ⟨fun _ => rfl, ?_, fun _ => rfl, fun _ => rfl, fun _ => rfl, ?_, ?_, fun _ => rfl⟩
  · intro fs
    simp only [jobListOf, JVal.get, Option.bind_eq_bind, Option.some_bind, Option.pure_def,
      Option.some.injEq]
    cases hj : (lookupField "jobs" fs).truthy
    · rw [or_of_falsy _ _ hj]
      cases hd : (lookupField "data" fs).truthy
      · rw [or_of_falsy _ _ hd]
        cases hp : (lookupField "postings" fs).truthy
        · rw [or_of_falsy _ _ hp]
          cases hq : (lookupField "job_postings" fs).truthy
          · rw [or_of_falsy _ _ hq]; rfl
          · rw [or_of_truthy _ _ hq]; rfl
        · rw [or_of_truthy _ _ hp, or_of_truthy _ _ hp]; rfl
      · rw [or_of_truthy _ _ hd, or_of_truthy _ _ hd, or_of_truthy _ _ hd]; rfl
    · rw [or_of_truthy _ _ hj, or_of_truthy _ _ hj, or_of_truthy _ _ hj,
        or_of_truthy _ _ hj]; rfl
  · intro json items source hl
    unfold findJobs tryBlock
    simp only [hl]
  · intro json v source hl hv
    unfold findJobs tryBlock
    simp only [hl]
    cases v with
    | arr items => exact absurd rfl (hv items)
    | _ => rfl

/-- Witness of C15 amended: the list iterated for `{"jobs":null,"data":[...]}` is the value
of `data`. -/
theorem jobListOf_first_truthy_witness :
    findJobs (some (.obj [("jobs", .null), ("data", .arr [titled "Technical Writer"])])) postman
      = ((forEachJob postman [titled "Technical Writer"] []).1).take 8 :=
  jobListOf_first_truthy.2.2.2.2.2.1
    (.obj [("jobs", .null), ("data", .arr [titled "Technical Writer"])])
    [titled "Technical Writer"] postman rfl

/-- C16, as stated, fails: in the entry `{"position":null,"title":"Technical Writer"}` the
first field present is `position`, and the title of the posting is the value of `title`. -/
theorem findJobs_title_skips_present_null :
    ¬ ∀ (source : SourceDescriptor) (fs : List (String × JVal)) (p : Posting),
        p ∈ findJobs (some (.arr [.obj fs])) source →
        specFirstPresent ["position", "title", "name"] fs = some (.str p.title) := by
  intro h
  have hp := h
    { name := "RemoteOK", url := "https://remoteok.com/api", type := "api" }
    [("position", .null), ("title", .str "Technical Writer")]
    { title := "Technical Writer", company := "RemoteOK", location := .str "Remote",
      url := .str "https://remoteok.com/api", source := .str "https://remoteok.com/api" }
    (List.mem_singleton.mpr rfl)
  have hspec : specFirstPresent ["position", "title", "name"]
      [("position", JVal.null), ("title", JVal.str "Technical Writer")] = some .null := rfl
  rw [hspec] at hp
  injection hp with hp
  cases hp

/-- C16, amended: the title of every posting returned by `findJobs` is, in its original case,
the string that is the first truthy of the entry's fields `position`, `title`, `name`; it is
not empty, and the company is the name of the source descriptor; the text
`{"jobs":[{"title":"Senior Technical Writer","location":"Berlin"}]}` yields exactly one
posting, with that title, the location `Berlin` and the name of the source as company. -/
theorem findJobs_title_and_company :
    (∀ (data : Option JVal) (source : SourceDescriptor) (p : Posting),
      p ∈ findJobs data source →
      ∃ json items fs, data = some json ∧ jobListOf json = some (.arr items) ∧
        JVal.obj fs ∈ items ∧
        ((lookupField "position" fs).truthy = true →
          lookupField "position" fs = .str p.title) ∧
        ((lookupField "position" fs).truthy = false →
          (lookupField "title" fs).truthy = true → lookupField "title" fs = .str p.title) ∧
        ((lookupField "position" fs).truthy = false →
          (lookupField "title" fs).truthy = false → lookupField "name" fs = .str p.title) ∧
        p.title ≠ "" ∧ p.company = source.name) ∧
    (∀ source : SourceDescriptor,
      findJobs (some (.obj [("jobs", .arr [.obj [("title", .str "Senior Technical Writer"),
                                               ("location", .str "Berlin")]])])) source
        = [{ title := "Senior Technical Writer", company := source.name,
             location := .str "Berlin", url := .str source.url,
             source := .str source.url }]) := by
  refine ⟨?_, fun _ => rfl⟩
  intro data source p h
  obtain ⟨json, items, fs, h1, h2, h3, ht, hm, hc, _, _, _⟩ := findJobs_fields data source p h
  refine ⟨json, items, fs, h1, h2, h3, ?_, ?_, ?_, ?_, hc⟩
  · intro hp
    rw [or_of_truthy _ _ hp, or_of_truthy _ _ hp] at ht
    exact ht.symm
  · intro hp htt
    rw [or_of_falsy _ _ hp, or_of_truthy _ _ htt] at ht
    exact ht.symm
  · intro hp htt
    rw [or_of_falsy _ _ hp, or_of_falsy _ _ htt] at ht
    exact ht.symm
  · intro he
    rw [he] at hm
    exact absurd hm (by decide)

/-- Witness of C16 amended: in the sample entry `position` is `null` and `title` is the first
truthy field. -/
theorem findJobs_title_and_company_witness :
    ∃ json items fs, some (JVal.arr [sampleEntry]) = some json ∧
      jobListOf json = some (.arr items) ∧ JVal.obj fs ∈ items ∧
      ((lookupField "position" fs).truthy = true →
        lookupField "position" fs = .str samplePosting.title) ∧
      ((lookupField "position" fs).truthy = false →
        (lookupField "title" fs).truthy = true →
        lookupField "title" fs = .str samplePosting.title) ∧
      ((lookupField "position" fs).truthy = false →
        (lookupField "title" fs).truthy = false →
        lookupField "name" fs = .str samplePosting.title) ∧
      samplePosting.title ≠ "" ∧ samplePosting.company = postman.name :=
  findJobs_title_and_company.1 (some (.arr [sampleEntry])) postman samplePosting
    samplePosting_mem

/-! ## Theorems on the count and the rows -/

/-- The generated block: the header shows the number of all postings given, the table has a
row for each of the first twelve. -/
theorem renderContent_some (now : String) (uniqueJobs : List Posting) (content : String)
    (h : renderContent now uniqueJobs = some content) :
    ∃ rows, renderRows (uniqueJobs.take 12) = some rows ∧
      rows.length = min 12 uniqueJobs.length ∧
      content = "<!-- JOBS-START -->\n#  **Live Technical Writing Jobs** ("
        ++ toString uniqueJobs.length ++ " found)\n\n"
        ++ (tableHeader ++ "\n| --- | --- | --- | --- |\n" ++ joinWith "\n" rows)
        ++ "\n\n**Sources:** RemoteOK, Postman, Twilio, GitLab  \n*Updated: " ++ now
        ++ " UTC*  \n<!-- JOBS-END -->" := by
  unfold renderContent renderTable at h
  cases hr : renderRows (uniqueJobs.take 12) with
  | none => simp [hr] at h
  | some rows =>
    simp only [hr, Option.map_some', Option.some.injEq] at h
    refine ⟨rows, rfl, ?_, h.symm⟩
    rw [renderRows_length _ _ hr, List.length_take]

/-- C17, as stated, fails: when RemoteOK answers with eight matching entries and GitLab with
five others, the pipeline hands thirteen postings to `updateReadme`, all kept by `dedupe`;
the header counts thirteen and the table has twelve rows. -/
theorem updateReadme_count_exceeds_rows :
    ¬ ∀ (response : String → Option JVal) (rows : List String),
        fetchAllJobs response ≠ [] →
        renderRows ((dedupe (fetchAllJobs response)).take 12) = some rows →
        rows.length = (dedupe (fetchAllJobs response)).length := by
  intro h
  have hlen : (dedupe (fetchAllJobs thirteenResponses)).length = 13 := by decide
  have hne : fetchAllJobs thirteenResponses ≠ [] := by
    intro he
    rw [he] at hlen
    exact absurd hlen (by decide)
  cases hr : renderRows ((dedupe (fetchAllJobs thirteenResponses)).take 12) with
  | none =>
    have : (renderRows ((dedupe (fetchAllJobs thirteenResponses)).take 12)).isSome = true := by
      decide
    rw [hr] at this
    exact absurd this (by decide)
  | some rows =>
    have h1 := h thirteenResponses rows hne hr
    have h2 := renderRows_length _ _ hr
    rw [List.length_take, hlen] at h2
    rw [hlen, h2] at h1
    exact absurd h1 (by decide)

/-- C17, amended: in the block generated for a posting list the table has one row for each of
the first twelve deduplicated postings, so the number of rows is the smaller of 12 and the
count shown in the header, which is the number of all deduplicated postings; the two are
equal when there are at most twelve deduplicated postings. -/
theorem updateReadme_rows_and_count (now : String) (jobs : List Posting) (content : String)
    (h : renderContent now (dedupe jobs) = some content) :
    ∃ rows, renderRows ((dedupe jobs).take 12) = some rows ∧
      content = "<!-- JOBS-START -->\n#  **Live Technical Writing Jobs** ("
        ++ toString (dedupe jobs).length ++ " found)\n\n"
        ++ (tableHeader ++ "\n| --- | --- | --- | --- |\n" ++ joinWith "\n" rows)
        ++ "\n\n**Sources:** RemoteOK, Postman, Twilio, GitLab  \n*Updated: " ++ now
        ++ " UTC*  \n<!-- JOBS-END -->" ∧
      rows.length = min 12 (dedupe jobs).length ∧
      ((dedupe jobs).length ≤ 12 → rows.length = (dedupe jobs).length) := by
  obtain ⟨rows, hr, hlen, hcontent⟩ := renderContent_some now (dedupe jobs) content h
  refine ⟨rows, hr, hcontent, hlen, ?_⟩
  intro hle
  rw [hlen]
  exact Nat.min_eq_right hle

set_option maxRecDepth 100000 in
/-- Witness of C17 amended: the block generated for the sample posting. -/
theorem updateReadme_rows_and_count_witness :
    ∃ rows, renderRows ((dedupe [samplePosting]).take 12) = some rows ∧
      ("<!-- JOBS-START -->\n#  **Live Technical Writing Jobs** (1 found)\n\n"
          ++ "| Company | Job Title | Location | Apply |\n"
          ++ "|---------|-----------|----------|--------|\n| --- | --- | --- | --- |\n"
          ++ "| **Postman** | **[Senior Technical Writer](https://example.com/apply)** | "
          ++ "Berlin, Germany | [ Apply](https://example.com/apply) |\n\n"
          ++ "**Sources:** RemoteOK, Postman, Twilio, GitLab  \n"
          ++ "*Updated: 11/5/2026, 12:00:00 AM UTC*  \n<!-- JOBS-END -->")
        = "<!-- JOBS-START -->\n#  **Live Technical Writing Jobs** ("
        ++ toString (dedupe [samplePosting]).length ++ " found)\n\n"
        ++ (tableHeader ++ "\n| --- | --- | --- | --- |\n" ++ joinWith "\n" rows)
        ++ "\n\n**Sources:** RemoteOK, Postman, Twilio, GitLab  \n*Updated: "
        ++ "11/5/2026, 12:00:00 AM" ++ " UTC*  \n<!-- JOBS-END -->" ∧
      rows.length = min 12 (dedupe [samplePosting]).length ∧
      ((dedupe [samplePosting]).length ≤ 12 →
        rows.length = (dedupe [samplePosting]).length) :=
  updateReadme_rows_and_count "11/5/2026, 12:00:00 AM" [samplePosting] _ (by decide)

/-! ## Theorems on the aggregator -/

/-- C19: whatever the five sources answer, `fetchAllJobs` returns the postings that
`findJobs` makes of the answers of RemoteOK, GitLab, Postman, Twilio and MongoDB,
concatenated in that order; they are at most 40, and none when no answer is valid JSON, as
when every answer is the empty string. -/
theorem fetchAllJobs_concatenates :
    (∀ response : String → Option JVal,
      fetchAllJobs response
        = findJobs (response "https://remoteok.com/api")
            { name := "RemoteOK", url := "https://remoteok.com/api", type := "api" }
          ++ findJobs (response "https://jobs.gitlab.com/jobs")
            { name := "GitLab", url := "https://jobs.gitlab.com/jobs", type := "html" }
          ++ findJobs (response "https://boards-api.greenhouse.io/v1/boards/postman/jobs")
            { name := "Postman",
              url := "https://boards-api.greenhouse.io/v1/boards/postman/jobs",
              type := "api" }
          ++ findJobs (response "https://boards-api.greenhouse.io/v1/boards/twilio/jobs")
            { name := "Twilio",
              url := "https://boards-api.greenhouse.io/v1/boards/twilio/jobs",
              type := "api" }
          ++ findJobs (response "https://boards-api.greenhouse.io/v1/boards/mongodb/jobs")
            { name := "MongoDB",
              url := "https://boards-api.greenhouse.io/v1/boards/mongodb/jobs",
              type := "api" }) ∧
    (∀ response : String → Option JVal, (fetchAllJobs response).length ≤ 40) ∧
    (∀ response : String → Option JVal,
      (∀ source ∈ JOB_BOARDS, response source.url = none) → fetchAllJobs response = []) := by
  have hcat : ∀ response : String → Option JVal,
      fetchAllJobs response
        = findJobs (response "https://remoteok.com/api")
            { name := "RemoteOK", url := "https://remoteok.com/api", type := "api" }
          ++ findJobs (response "https://jobs.gitlab.com/jobs")
            { name := "GitLab", url := "https://jobs.gitlab.com/jobs", type := "html" }
          ++ findJobs (response "https://boards-api.greenhouse.io/v1/boards/postman/jobs")
            { name := "Postman",
              url := "https://boards-api.greenhouse.io/v1/boards/postman/jobs",
              type := "api" }
          ++ findJobs (response "https://boards-api.greenhouse.io/v1/boards/twilio/jobs")
            { name := "Twilio",
              url := "https://boards-api.greenhouse.io/v1/boards/twilio/jobs",
              type := "api" }
          ++ findJobs (response "https://boards-api.greenhouse.io/v1/boards/mongodb/jobs")
            { name := "MongoDB",
              url := "https://boards-api.greenhouse.io/v1/boards/mongodb/jobs",
              type := "api" } := by
    intro response
    simp only [fetchAllJobs, JOB_BOARDS, List.foldl_cons, List.foldl_nil, List.nil_append]
  refine ⟨hcat, ?_, ?_⟩
  · intro response
    rw [hcat response]
    simp only [List.length_append]
    have h1 := findJobs_length_le (response "https://remoteok.com/api")
      { name := "RemoteOK", url := "https://remoteok.com/api", type := "api" }
    have h2 := findJobs_length_le (response "https://jobs.gitlab.com/jobs")
      { name := "GitLab", url := "https://jobs.gitlab.com/jobs", type := "html" }
    have h3 := findJobs_length_le
      (response "https://boards-api.greenhouse.io/v1/boards/postman/jobs")
      { name := "Postman", url := "https://boards-api.greenhouse.io/v1/boards/postman/jobs",
        type := "api" }
    have h4 := findJobs_length_le
      (response "https://boards-api.greenhouse.io/v1/boards/twilio/jobs")
      { name := "Twilio", url := "https://boards-api.greenhouse.io/v1/boards/twilio/jobs",
        type := "api" }
    have h5 := findJobs_length_le
      (response "https://boards-api.greenhouse.io/v1/boards/mongodb/jobs")
      { name := "MongoDB", url := "https://boards-api.greenhouse.io/v1/boards/mongodb/jobs",
        type := "api" }
    omega
  · intro response hall
    rw [hcat response]
    have e1 : response "https://remoteok.com/api" = none :=
      hall ⟨"RemoteOK", "https://remoteok.com/api", "api"⟩ (by simp [JOB_BOARDS])
    have e2 : response "https://jobs.gitlab.com/jobs" = none :=
      hall ⟨"GitLab", "https://jobs.gitlab.com/jobs", "html"⟩ (by simp [JOB_BOARDS])
    have e3 : response "https://boards-api.greenhouse.io/v1/boards/postman/jobs" = none :=
      hall ⟨"Postman", "https://boards-api.greenhouse.io/v1/boards/postman/jobs", "api"⟩
        (by simp [JOB_BOARDS])
    have e4 : response "https://boards-api.greenhouse.io/v1/boards/twilio/jobs" = none :=
      hall ⟨"Twilio", "https://boards-api.greenhouse.io/v1/boards/twilio/jobs", "api"⟩
        (by simp [JOB_BOARDS])
    have e5 : response "https://boards-api.greenhouse.io/v1/boards/mongodb/jobs" = none :=
      hall ⟨"MongoDB", "https://boards-api.greenhouse.io/v1/boards/mongodb/jobs", "api"⟩
        (by simp [JOB_BOARDS])
    rw [e1, e2, e3, e4, e5]
    rfl

/-- Witness of C19: no source answers with valid JSON. -/
theorem fetchAllJobs_concatenates_witness : fetchAllJobs (fun _ => none) = [] :=
  fetchAllJobs_concatenates.2.2 (fun _ => none) (fun _ _ => rfl)

/-! ## Theorems on the keywords -/

/-- The substring test finds the needle exactly when it is a contiguous part of the text. -/
theorem includesChars_iff (hay kw : List Char) : includesChars hay kw = true ↔ kw <:+: hay := by
  induction hay with
  | nil =>
    unfold includesChars
    rw [List.isPrefixOf_iff_prefix, List.prefix_nil, List.infix_nil]
  | cons c t ih =>
    unfold includesChars
    rw [Bool.or_eq_true, List.isPrefixOf_iff_prefix, ih, List.infix_cons_iff]

/-- A text that includes a keyword includes every part of that keyword. -/
theorem includes_of_part (title long short : String) (hpart : includes long short = true)
    (h : includes title long = true) : includes title short = true := by
  unfold includes at *
  rw [includesChars_iff] at *
  exact hpart.trans h

/-- C20: for every title the keyword test of `findJobs` gives the answer of the test with the
ten keywords `writer`, `writing`, `documentation`, `docs`, `content`, `knowledge`,
`developer advocate`, `technical evangelist`, `developer relations` and
`technical marketing`: a title that contains `technical writer` or `staff writer` contains
`writer`, one that contains `documentation engineer` contains `documentation`, one that
contains `technical content` contains `content`. -/
theorem matchesKeyword_eq_core (title : String) :
    matchesKeyword title = coreKeywords.any (fun kw => includes title kw) := by
  have h1 := includes_of_part title "technical writer" "writer" (by decide)
  have h2 := includes_of_part title "staff writer" "writer" (by decide)
  have h3 := includes_of_part title "documentation engineer" "documentation" (by decide)
  have h4 := includes_of_part title "technical content" "content" (by decide)
  rw [Bool.eq_iff_iff]
  simp only [matchesKeyword, writingKeywords, coreKeywords, List.any_cons, List.any_nil,
    Bool.or_false, Bool.or_eq_true]
  constructor
  · rintro (h | h | h | h | h | h | h | h | h | h | h | h | h | h)
    · simp only [h, true_or]
    · simp only [h, true_or, or_true]
    · simp only [h, true_or, or_true]
    · simp only [h, true_or, or_true]
    · simp only [h1 h, true_or]
    · simp only [h, true_or, or_true]
    · simp only [h3 h, true_or, or_true]
    · simp only [h4 h, true_or, or_true]
    · simp only [h, true_or, or_true]
    · simp only [h, true_or, or_true]
    · simp only [h2 h, true_or]
    · simp only [h, true_or, or_true]
    · simp only [h, true_or, or_true]
    · simp only [h, or_true]
  · rintro (h | h | h | h | h | h | h | h | h | h)
    · simp only [h, true_or]
    · simp only [h, true_or, or_true]
    · simp only [h, true_or, or_true]
    · simp only [h, true_or, or_true]
    · simp only [h, true_or, or_true]
    · simp only [h, true_or, or_true]
    · simp only [h, true_or, or_true]
    · simp only [h, true_or, or_true]
    · simp only [h, true_or, or_true]
    · simp only [h, or_true]

end FetchJobs
